import Mathlib

/-!
Verification development for the codex protocol-translation relay.

The JavaScript sources are shallowly embedded as pure Lean functions:

* duck-typed JavaScript/JSON values become the inductive type Json;
* the SSE event stream written by a request handler becomes a List Ev,
  in emission order;
* random identifiers (response ids, call ids) are threaded as explicit
  string parameters, since the source only ever generates them freshly
  and forwards them;
* network calls (the upstream chat call, the OAuth token exchanges) are
  modelled by Except-valued parameters carrying the outcome the wire
  produced, and the SHA-256 digest used by the PKCE flow is an abstract
  byte-function parameter;
* JSON.parse is modelled by jsonParseModel (numeric literals are
  modelled as integers) and Buffer base64/utf8 decoding by
  b64decodeNode / utf8Decode.
-/

namespace Codex

/-- JavaScript/JSON value as handled by the relay scripts. Numbers are
modelled as integers (every numeric literal the scripts handle is one). -/
inductive Json where
  | null : Json
  | bool : Bool → Json
  | num : Int → Json
  | str : String → Json
  | arr : List Json → Json
  | obj : List (String × Json) → Json
deriving Repr

/-- JavaScript truthiness of a value (ToBoolean). Objects and arrays are
always truthy; empty strings, zero, null and false are falsy. -/
def jsTruthy : Json → Bool
  | .null => false
  | .bool b => b
  | .num n => n != 0
  | .str s => s ≠ ""
  | .arr _ => true
  | .obj _ => true

/-- Property access v[k] on an object; none for absent fields and for any
non-object (mirroring undefined). Duplicate keys resolve to the last one,
as JSON.parse and object literals do. -/
def Json.getField : Json → String → Option Json
  | .obj fields, k => (fields.reverse.lookup k)
  | _, _ => none

/-- Optional-chained field access o?.k. -/
def getFieldOpt (o : Option Json) (k : String) : Option Json :=
  o.bind (fun j => j.getField k)

/-- Truthiness of an optional value (undefined is falsy). -/
def jsTruthyOpt (o : Option Json) : Bool :=
  match o with
  | some v => jsTruthy v
  | none => false

/-- Truthiness of an optional string (undefined and the empty string are
falsy). -/
def jsTruthyStrOpt (o : Option String) : Bool :=
  match o with
  | some s => s ≠ ""
  | none => false

def lbrace : Char := Char.ofNat 123
def rbrace : Char := Char.ofNat 125

/-- JS whitespace class (ASCII range; the scripts only trim ASCII). -/
def isJsWs (c : Char) : Bool :=
  c = ' ' || c = '\t' || c = '\n' || c = '\r' || c.toNat = 12 || c.toNat = 11

/-- Model of String.prototype.trim. -/
def jsTrim (s : String) : String :=
  String.mk (((s.toList.dropWhile isJsWs).reverse.dropWhile isJsWs).reverse)

def splitDotsAux : List Char → List Char → List String
  | [], acc => [String.mk acc.reverse]
  | c :: rest, acc =>
    if c = '.' then String.mk acc.reverse :: splitDotsAux rest []
    else splitDotsAux rest (c :: acc)

/-- Model of s.split with a dot separator: the list of dot-free runs,
empty runs included, never empty itself. -/
def splitDots (s : String) : List String := splitDotsAux s.toList []

/-- Escape one character the way JSON.stringify escapes string contents. -/
def jsonEscapeChar (c : Char) : List Char :=
  if c = '"' then ['\\', '"']
  else if c = '\\' then ['\\', '\\']
  else if c = '\n' then ['\\', 'n']
  else if c = '\r' then ['\\', 'r']
  else if c = '\t' then ['\\', 't']
  else if c.toNat < 32 then
    let hex := Nat.toDigits 16 c.toNat
    let pad := List.replicate (4 - hex.length) '0' ++ hex
    '\\' :: 'u' :: pad
  else [c]

/-- JSON string literal for s, double quotes included. -/
def jsonQuote (s : String) : String :=
  String.mk ('"' :: (s.toList.flatMap jsonEscapeChar) ++ ['"'])

mutual

/-- JSON.stringify for the modelled values (keys in insertion order, no
whitespace, exactly as Node prints them). -/
def Json.stringifyJS : Json → String
  | .null => "null"
  | .bool true => "true"
  | .bool false => "false"
  | .num n => toString n
  | .str s => jsonQuote s
  | .arr es => "[" ++ Json.stringifyArr es ++ "]"
  | .obj fields => String.mk [lbrace] ++ Json.stringifyFields fields ++ String.mk [rbrace]

/-- Comma-joined serialization of array elements. -/
def Json.stringifyArr : List Json → String
  | [] => ""
  | [e] => e.stringifyJS
  | e :: e2 :: es => e.stringifyJS ++ "," ++ Json.stringifyArr (e2 :: es)

/-- Comma-joined serialization of object members. -/
def Json.stringifyFields : List (String × Json) → String
  | [] => ""
  | [(k, v)] => jsonQuote k ++ ":" ++ v.stringifyJS
  | (k, v) :: f :: fs =>
      jsonQuote k ++ ":" ++ v.stringifyJS ++ "," ++ Json.stringifyFields (f :: fs)

end

/-- Test for the null value. -/
def Json.isNull : Json → Bool
  | .null => true
  | _ => false

mutual

/-- String() conversion used when tool names or joined array elements are
not already strings (arrays join with commas and render null elements as
empty, objects print their tag). -/
def jsToString : Json → String
  | .null => "null"
  | .bool true => "true"
  | .bool false => "false"
  | .num n => toString n
  | .str s => s
  | .arr es => jsJoinComma es
  | .obj _ => "[object Object]"

/-- Array.prototype.toString: elements comma-joined, null rendering
empty. -/
def jsJoinComma : List Json → String
  | [] => ""
  | [e] => if e.isNull then "" else jsToString e
  | e :: e2 :: es =>
      (if e.isNull then "" else jsToString e) ++ "," ++ jsJoinComma (e2 :: es)

end

/-! JSON.parse model. Fuel-indexed recursive descent; numeric literals are
modelled as integers (no fraction/exponent forms, which none of the
scripts' payloads use). A none result models a JSON.parse throw. -/

def wsChars : List Char := [' ', '\n', '\t', '\r']

def skipWs (cs : List Char) : List Char := cs.dropWhile (fun c => wsChars.contains c)

def expectLit (lit : List Char) (cs : List Char) : Option (List Char) :=
  if lit.isPrefixOf cs then some (cs.drop lit.length) else none

def parseDigits (cs : List Char) : Option (Nat × List Char) :=
  let ds := cs.takeWhile Char.isDigit
  if ds = [] then none
  else some (ds.foldl (fun a c => a * 10 + (c.toNat - 48)) 0, cs.drop ds.length)

def hexVal (c : Char) : Option Nat :=
  if c.isDigit then some (c.toNat - 48)
  else if 'a' ≤ c && c ≤ 'f' then some (c.toNat - 87)
  else if 'A' ≤ c && c ≤ 'F' then some (c.toNat - 55)
  else none

def escChar (c : Char) : Option Char :=
  if c = '"' then some '"'
  else if c = '\\' then some '\\'
  else if c = '/' then some '/'
  else if c = 'n' then some '\n'
  else if c = 't' then some '\t'
  else if c = 'r' then some '\r'
  else if c = 'b' then some (Char.ofNat 8)
  else if c = 'f' then some (Char.ofNat 12)
  else none

def parseStringBody : Nat → List Char → List Char → Option (String × List Char)
  | 0, _, _ => none
  | _ + 1, [], _ => none
  | f + 1, c :: rest, acc =>
    if c = '"' then some (String.mk acc.reverse, rest)
    else if c = '\\' then
      match rest with
      | [] => none
      | e :: rest2 =>
        if e = 'u' then
          match rest2 with
          | h1 :: h2 :: h3 :: h4 :: rest3 =>
            match hexVal h1, hexVal h2, hexVal h3, hexVal h4 with
            | some a, some b, some c2, some d =>
                parseStringBody f rest3 (Char.ofNat (((a * 16 + b) * 16 + c2) * 16 + d) :: acc)
            | _, _, _, _ => none
          | _ => none
        else
          match escChar e with
          | some ch => parseStringBody f rest2 (ch :: acc)
          | none => none
    else parseStringBody f rest (c :: acc)

mutual

def parseValue : Nat → List Char → Option (Json × List Char)
  | 0, _ => none
  | f + 1, cs0 =>
    match skipWs cs0 with
    | [] => none
    | c :: rest =>
      if c = 'n' then (expectLit "ull".toList rest).map (fun r => (Json.null, r))
      else if c = 't' then (expectLit "rue".toList rest).map (fun r => (Json.bool true, r))
      else if c = 'f' then (expectLit "alse".toList rest).map (fun r => (Json.bool false, r))
      else if c = '"' then (parseStringBody f rest []).map (fun p => (Json.str p.1, p.2))
      else if c = '-' then (parseDigits rest).map (fun p => (Json.num (-(p.1 : Int)), p.2))
      else if c.isDigit then (parseDigits (c :: rest)).map (fun p => (Json.num (p.1 : Int), p.2))
      else if c = '[' then
        match skipWs rest with
        | ']' :: r2 => some (Json.arr [], r2)
        | _ => (parseItems f rest).map (fun p => (Json.arr p.1, p.2))
      else if c = lbrace then
        match skipWs rest with
        | c2 :: r2 => if c2 = rbrace then some (Json.obj [], r2) else
            (parseMembers f rest).map (fun p => (Json.obj p.1, p.2))
        | [] => none
      else none

def parseItems : Nat → List Char → Option (List Json × List Char)
  | 0, _ => none
  | f + 1, cs =>
    match parseValue f cs with
    | none => none
    | some (v, r) =>
      match skipWs r with
      | ',' :: r2 => (parseItems f r2).map (fun p => (v :: p.1, p.2))
      | ']' :: r2 => some ([v], r2)
      | _ => none

def parseMembers : Nat → List Char → Option (List (String × Json) × List Char)
  | 0, _ => none
  | f + 1, cs =>
    match skipWs cs with
    | '"' :: r =>
      match parseStringBody f r [] with
      | some (k, r2) =>
        match skipWs r2 with
        | ':' :: r3 =>
          match parseValue f r3 with
          | some (v, r4) =>
            match skipWs r4 with
            | ',' :: r5 => (parseMembers f r5).map (fun p => ((k, v) :: p.1, p.2))
            | c :: r5 => if c = rbrace then some ([(k, v)], r5) else none
            | [] => none
          | none => none
        | _ => none
      | none => none
    | _ => none

end

/-- Model of JSON.parse: none models a parse error (throw). -/
def jsonParseModel (s : String) : Option Json :=
  match parseValue (s.length + 2) s.toList with
  | some (v, r) => if skipWs r = [] then some v else none
  | none => none

/-! Base64 (Node Buffer semantics) and UTF-8 decoding. -/

def b64chars : List Char :=
  "ABCDEFGHIJKLMNOPQRSTUVWXYZabcdefghijklmnopqrstuvwxyz0123456789+/".toList

def b64c (n : Nat) : Char := b64chars.getD (n % 64) 'A'

/-- Standard base64 encoding of a byte list, padding included
(Buffer.toString with base64). -/
def b64encode : List Nat → List Char
  | [] => []
  | [a] => [b64c (a / 4), b64c (a % 4 * 16), '=', '=']
  | [a, b] => [b64c (a / 4), b64c (a % 4 * 16 + b / 16), b64c (b % 16 * 4), '=']
  | a :: b :: c :: rest =>
      b64c (a / 4) :: b64c (a % 4 * 16 + b / 16) :: b64c (b % 16 * 4 + c / 64) ::
        b64c (c % 64) :: b64encode rest

def urlMapChar (c : Char) : Char :=
  if c = '+' then '-' else if c = '/' then '_' else c

def stripTrailingEq (cs : List Char) : List Char :=
  (cs.reverse.dropWhile (fun c => c = '=')).reverse

/-- The base64url helper of test_gpt.js: standard base64, plus replaced by
minus, slash replaced by underscore, trailing equals stripped. -/
def base64url (bytes : List Nat) : String :=
  String.mk (stripTrailingEq ((b64encode bytes).map urlMapChar))

/-- Characters allowed in an unpadded URL-safe base64 value: letters,
digits, minus and underscore (in particular no plus, slash or equals). -/
def urlSafeChar (c : Char) : Bool := c.isAlphanum || c = '-' || c = '_'

def b64val (c : Char) : Option Nat := b64chars.findIdx? (fun d => d = c)

/-- Reassemble 6-bit groups into bytes; a trailing lone group is dropped,
as Node does. -/
def b64groups : List Nat → List Nat
  | a :: b :: c :: d :: rest =>
      (a * 4 + b / 16) :: (b % 16 * 16 + c / 4) :: (c % 4 * 64 + d) :: b64groups rest
  | [a, b] => [a * 4 + b / 16]
  | [a, b, c] => [a * 4 + b / 16, b % 16 * 16 + c / 4]
  | _ => []

/-- Buffer.from with base64: non-alphabet characters (including padding)
are skipped, then 6-bit groups are packed into bytes. -/
def b64decodeNode (cs : List Char) : List Nat := b64groups (cs.filterMap b64val)

def replacementChar : Char := Char.ofNat 0xFFFD

def isCont (b : Nat) : Bool := 128 ≤ b && b < 192

/-- Buffer.toString with utf8: decode a byte list, substituting the
replacement character for invalid sequences. -/
def utf8Decode : List Nat → List Char
  | [] => []
  | b :: rest =>
    if b < 128 then Char.ofNat b :: utf8Decode rest
    else if b < 192 then replacementChar :: utf8Decode rest
    else if b < 224 then
      match rest with
      | b2 :: rest2 =>
        if isCont b2 then Char.ofNat (b % 32 * 64 + b2 % 64) :: utf8Decode rest2
        else replacementChar :: utf8Decode (b2 :: rest2)
      | [] => [replacementChar]
    else if b < 240 then
      match rest with
      | b2 :: b3 :: rest2 =>
        if isCont b2 && isCont b3 then
          Char.ofNat (b % 16 * 4096 + b2 % 64 * 64 + b3 % 64) :: utf8Decode rest2
        else replacementChar :: utf8Decode (b2 :: b3 :: rest2)
      | _ => [replacementChar]
    else
      match rest with
      | b2 :: b3 :: b4 :: rest2 =>
        if isCont b2 && isCont b3 && isCont b4 then
          Char.ofNat (b % 8 * 262144 + b2 % 64 * 4096 + b3 % 64 * 64 + b4 % 64) ::
            utf8Decode rest2
        else replacementChar :: utf8Decode (b2 :: b3 :: b4 :: rest2)
      | _ => [replacementChar]
termination_by l => l.length

/-! Substring search utilities (String.indexOf / String.includes). -/

/-- Whether pat occurs in t starting at index i. -/
def matchesAt (pat t : List Char) (i : Nat) : Bool := pat.isPrefixOf (t.drop i)

/-- Model of text.indexOf(pat, start): least index at or after start where
pat occurs; none models the -1 result. -/
def indexOfFrom (pat t : List Char) (start : Nat) : Option Nat :=
  ((List.range (t.length + 1)).filter (fun i => decide (start ≤ i))).find?
    (fun i => matchesAt pat t i)

/-- Model of text.includes(pat). -/
def containsSub (pat t : List Char) : Bool :=
  (List.range (t.length + 1)).any (fun i => matchesAt pat t i)

def includesStr (s pat : String) : Bool := containsSub pat.toList s.toList

/-- text.slice(s, e) on character lists. -/
def extractSpan (t : List Char) (s e : Nat) : List Char := (t.drop s).take (e - s)

def mapChars (f : Char → Char) (s : String) : String := String.mk (s.toList.map f)

/-- Replace minus by plus and underscore by slash (the JWT decoders'
conversion from base64url to standard base64). -/
def urlToStd (s : String) : String :=
  mapChars (fun c => if c = '-' then '+' else if c = '_' then '/' else c) s

/-! Event model. One Ev per SSE record written by the handlers, in
emission order. Randomly generated call identifiers are omitted from the
event payloads (the sources mint a fresh one per event and never inspect
them); response identifiers are kept because the order invariant is about
them. Structured item payloads keep exactly the fields the sources set. -/

/-- Usage accounting structure carried by a completed event. -/
structure Usage where
  inputTokens : Nat
  outputTokens : Nat
  totalTokens : Nat
deriving DecidableEq, Repr

def zeroUsage : Usage := ⟨0, 0, 0⟩

/-- One SSE event. created/completed carry the response identifier of
their payload (none when the source writes an empty response object);
item events carry the item fields the source sets; the local shell item
carries its command array JSON-serialized. -/
inductive Ev where
  | created (responseId : Option String)
  | reasoningSummaryDelta (delta : String)
  | outputTextDelta (delta : String)
  | itemMessage (text : String)
  | itemFunctionCall (name : String) (arguments : String)
  | itemCustomToolCall (name : String) (input : String)
  | itemLocalShellCall (commandJson : String)
  | failed (message : String)
  | completed (responseId : Option String) (usage : Option Usage)
deriving DecidableEq, Repr

def Ev.isCreated : Ev → Bool
  | .created _ => true
  | _ => false

def Ev.isCompleted : Ev → Bool
  | .completed _ _ => true
  | _ => false

def Ev.isMessage : Ev → Bool
  | .itemMessage _ => true
  | _ => false

/-- Tool-call events: generic function calls, custom tool calls and local
shell calls. -/
def Ev.isToolCall : Ev → Bool
  | .itemFunctionCall _ _ => true
  | .itemCustomToolCall _ _ => true
  | .itemLocalShellCall _ => true
  | _ => false

def Ev.isFailed : Ev → Bool
  | .failed _ => true
  | _ => false

/-- An event that is neither a created nor a completed event. -/
def nonTerminal (e : Ev) : Bool := !e.isCreated && !e.isCompleted

/-- The order invariant of the spec: exactly one created event, exactly
one completed event, the first event is the created one and the last the
completed one. -/
def orderInvariant (evs : List Ev) : Prop :=
  (evs.filter Ev.isCreated).length = 1 ∧
  (evs.filter Ev.isCompleted).length = 1 ∧
  (∃ e, evs.head? = some e ∧ e.isCreated = true) ∧
  (∃ e, evs.getLast? = some e ∧ e.isCompleted = true)

/-- Response identifier carried by a created or completed event. -/
def Ev.respId : Ev → Option String
  | .created r => r
  | .completed r _ => r
  | _ => none

/-! Fake-LLM server (part_000): sendCodexResponse, the JSON-to-SSE
translator. -/

/-- The pushAssistantText helper: skip empty text, else one message item
with a single output_text fragment. -/
def pushAssistantText (t : String) : List Ev :=
  if t = "" then [] else [Ev.itemMessage t]

/-- Whether field k of j is exactly boolean true (strict equality). -/
def fieldIsTrue (j : Json) (k : String) : Bool :=
  match j.getField k with
  | some (.bool true) => true
  | _ => false

/-- Detection of explicit finalization flags: final, done or finish
strictly equal to true. -/
def isFinalOf (j : Json) : Bool :=
  fieldIsTrue j "final" || fieldIsTrue j "done" || fieldIsTrue j "finish"

/-- Field k of j when it is a string that is truthy (non-empty); the
JS pattern typeof v === "string" && v. -/
def strFieldTruthy (j : Json) (k : String) : Option String :=
  match j.getField k with
  | some (.str s) => if s = "" then none else some s
  | _ => none

/-- Predicate of the content-array fallback search: an element with
type === "text" and a string text field. -/
def isTextElem (c : Json) : Bool :=
  (match c.getField "type" with
   | some (.str s) => s = "text"
   | _ => false) &&
  (match c.getField "text" with
   | some (.str _) => true
   | _ => false)

/-- The content-array arm of the finalization message chain: text of the
first text-typed element, none when that text is falsy (empty) or no
element matches. -/
def contentArrayTextFallback (j : Json) : Option String :=
  match j.getField "content" with
  | some (.arr cs) =>
    match cs.find? isTextElem with
    | some c =>
      match c.getField "text" with
      | some (.str s) => if s = "" then none else some s
      | _ => none
    | none => none
  | _ => none

/-- The finalization message: assistant_message, else output, else
content (string or first text element of an array), else "Done.",
with JS truthiness at every step. -/
def finalMsgOf (j : Json) : String :=
  (strFieldTruthy j "assistant_message").getD
    ((strFieldTruthy j "output").getD
      ((strFieldTruthy j "content").getD
        ((contentArrayTextFallback j).getD "Done.")))

/-- Reasoning summary emission: one delta event carrying the full summary
string when json.reasoning.summary is a string with non-blank content. -/
def summaryEvsOf (j : Json) : List Ev :=
  match getFieldOpt (j.getField "reasoning") "summary" with
  | some (.str s) => if jsTrim s ≠ "" then [Ev.reasoningSummaryDelta s] else []
  | _ => []

/-- Message events of a content array: one per text-typed element. -/
def textElemEvs (cs : List Json) : List Ev :=
  cs.flatMap (fun c =>
    match c.getField "type", c.getField "text" with
    | some (.str "text"), some (.str t) => pushAssistantText t
    | _, _ => [])

/-- Non-final content emission: a string content, or each text-typed
element of a content array. -/
def contentEvsOf (j : Json) : List Ev :=
  match j.getField "content" with
  | some (.str s) => pushAssistantText s
  | some (.arr cs) => textElemEvs cs
  | _ => []

/-- Message events of an output array: one per output_text element. -/
def outputElemEvs (os : List Json) : List Ev :=
  os.flatMap (fun o =>
    match o.getField "type", o.getField "text" with
    | some (.str "output_text"), some (.str t) => pushAssistantText t
    | _, _ => [])

/-- Non-final output emission: a string output, or each output_text
element of an output array. -/
def outputEvsOf (j : Json) : List Ev :=
  match j.getField "output" with
  | some (.str s) => pushAssistantText s
  | some (.arr os) => outputElemEvs os
  | _ => []

/-- First field among ks whose value is truthy (the a || b || c chain of
the tool-call name selection). -/
def firstTruthyField (j : Json) (ks : List String) : Option Json :=
  match ks with
  | [] => none
  | k :: ks' =>
    match j.getField k with
    | some v => if jsTruthy v then some v else firstTruthyField j ks'
    | none => firstTruthyField j ks'

/-- First field among ks that is present and not null (the a ?? b ?? c
chain of the tool-call argument selection). -/
def firstPresentNonNullField (j : Json) (ks : List String) : Option Json :=
  match ks with
  | [] => none
  | k :: ks' =>
    match j.getField k with
    | some v => if v.isNull then firstPresentNonNullField j ks' else some v
    | none => firstPresentNonNullField j ks'

def shellNames : List String := ["shell", "exec", "bash", "sh", "run"]

/-- Array.join with a space: null elements render empty, the rest via
String(). -/
def jsJoinElems (es : List Json) : String :=
  String.intercalate " " (es.map (fun e => if e.isNull then "" else jsToString e))

/-- The shell-command normalization of emitToolCall: args.cmd string, else
args.command joined when an array, else args.command string, else a bare
array joined; none models the undefined cmdStr. -/
def normalizeShellCommand (args : Option Json) : Option String :=
  match getFieldOpt args "cmd" with
  | some (.str s) => some s
  | _ =>
    match getFieldOpt args "command" with
    | some (.arr l) => some (jsJoinElems l)
    | some (.str s) => some s
    | _ =>
      match args with
      | some (.arr l) => some (jsJoinElems l)
      | _ => none

/-- Optional execution knobs copied into the exec_command payload when
they have the checked types. -/
def shellKnobs (args : Option Json) : List (String × Json) :=
  (match getFieldOpt args "yield_time_ms" with
   | some (.num n) => [("yield_time_ms", Json.num n)]
   | _ => []) ++
  (match getFieldOpt args "max_output_tokens" with
   | some (.num n) => [("max_output_tokens", Json.num n)]
   | _ => []) ++
  (match getFieldOpt args "shell" with
   | some (.str s) => [("shell", Json.str s)]
   | _ => []) ++
  (match getFieldOpt args "login" with
   | some (.bool b) => [("login", Json.bool b)]
   | _ => [])

/-- Arguments string of a generic function-call item: a string argument
passes through, anything else (with null and undefined replaced by an
empty object) is JSON-stringified. -/
def functionCallArgsStr (o : Option Json) : String :=
  match o with
  | some (.str s) => s
  | some .null => (Json.obj []).stringifyJS
  | some j => j.stringifyJS
  | none => (Json.obj []).stringifyJS

/-- The patch-text extraction of the apply_patch arm: args.input string,
else args.patch string, else args itself when a string. -/
def patchTextOf (args : Option Json) : Option String :=
  match getFieldOpt args "input" with
  | some (.str s) => some s
  | _ =>
    match getFieldOpt args "patch" with
    | some (.str s) => some s
    | _ =>
      match args with
      | some (.str s) => some s
      | _ => none

/-- The emitToolCall helper of sendCodexResponse: resolve the name
(unknown_function when falsy), parse string arguments when possible,
then the shell arm, the apply_patch arm, or the generic passthrough. -/
def emitToolCall (nameIn argsIn : Option Json) : List Ev :=
  let name : String :=
    match nameIn with
    | some v => if jsTruthy v then jsToString v else "unknown_function"
    | none => "unknown_function"
  let args : Option Json :=
    match argsIn with
    | some (.str s) =>
      some (match jsonParseModel s with
            | some j => j
            | none => Json.str s)
    | o => o
  if shellNames.contains name && jsTruthyStrOpt (normalizeShellCommand args) then
    [Ev.itemFunctionCall "exec_command"
      (functionCallArgsStr
        (some (Json.obj (("cmd", Json.str ((normalizeShellCommand args).getD "")) ::
                shellKnobs args))))]
  else if name = "apply_patch" && jsTruthyStrOpt (patchTextOf args) then
    [Ev.itemCustomToolCall "apply_patch" ((patchTextOf args).getD "")]
  else
    [Ev.itemFunctionCall name (functionCallArgsStr args)]

def toolNameKeys : List String := ["type", "name", "tool", "function"]
def toolArgKeys : List String := ["arguments", "parameters", "params", "args"]

/-- The tool_calls array of the fake-LLM payload (empty when absent or
not an array). -/
def partZeroToolsOf (j : Json) : List Json :=
  match j.getField "tool_calls" with
  | some (.arr ts) => ts
  | _ => []

/-- Tool-call emission of sendCodexResponse (the not-final case): each
entry of a non-empty tool_calls array, or else a single root-level call
object recognized by a truthy name-carrying field. -/
def toolCallEvsOf (j : Json) : List Ev :=
  if (partZeroToolsOf j).length > 0 then
    (partZeroToolsOf j).flatMap (fun call =>
      emitToolCall (firstTruthyField call toolNameKeys)
        (firstPresentNonNullField call toolArgKeys))
  else if jsTruthy j && (firstTruthyField j toolNameKeys).isSome then
    emitToolCall (firstTruthyField j toolNameKeys)
      (firstPresentNonNullField j toolArgKeys)
  else []

/-- The sendCodexResponse translator of the fake-LLM server: created,
optional reasoning delta, then either the single finalization message or
the content/output/tool-call emission, then completed with zeroed usage. -/
def sendCodexResponse (json : Json) (rid : String) : List Ev :=
  Ev.created (some rid) ::
    ((summaryEvsOf json ++
      (if isFinalOf json then
        pushAssistantText (finalMsgOf json)
      else
        contentEvsOf json ++ outputEvsOf json ++ toolCallEvsOf json)) ++
     [Ev.completed (some rid) (some zeroUsage)])

/-! Generic Responses adapter (0chat.js): tryParseJson with fenced-block
recovery, mapJsonToSse and the /v1/responses handler. -/

def fenceOpen : List Char := "```".toList

/-- Index of the first non-whitespace character at or after i. -/
def skipWsIdx (t : List Char) (i : Nat) : Nat :=
  i + ((t.drop i).takeWhile isJsWs).length

/-- Case-insensitive occurrence of a lowercase pattern at index i. -/
def ciMatchesAt (pat t : List Char) (i : Nat) : Bool :=
  ((t.drop i).take pat.length).map Char.toLower = pat

/-- One attempt of the fenced-JSON capture at position i: an opening
fence, optional whitespace, a case-insensitive json tag, optional
whitespace, then a lazy capture up to the nearest closing fence. -/
def fenceMatchAt (t : List Char) (i : Nat) : Option (List Char) :=
  if matchesAt fenceOpen t i then
    let j := skipWsIdx t (i + 3)
    if ciMatchesAt "json".toList t j then
      let k := skipWsIdx t (j + 4)
      match indexOfFrom fenceOpen t k with
      | some m => some (extractSpan t k m)
      | none => none
    else none
  else none

/-- First successful fence capture, scanning left to right exactly as the
regex engine advances its start position. -/
def fenceCapture (t : List Char) : Option (List Char) :=
  (List.range (t.length + 1)).findSome? (fenceMatchAt t)

/-- Last index at which character c occurs (String.lastIndexOf). -/
def lastIndexOfChar (c : Char) (t : List Char) : Option Nat :=
  ((List.range t.length).filter (fun i => t.getD i ' ' = c)).getLast?

/-- Last index at which pat occurs as a substring. -/
def lastIndexOfSub (pat t : List Char) : Option Nat :=
  ((List.range (t.length + 1)).filter (fun i => matchesAt pat t i)).getLast?

/-- The brace-slice recovery: parse the span between the first opening
brace and the last closing brace when the latter comes strictly later. -/
def braceSliceParse (text : String) : Option Json :=
  let t := text.toList
  match indexOfFrom [lbrace] t 0, lastIndexOfChar rbrace t with
  | some a, some b =>
      if b > a then jsonParseModel (String.mk (extractSpan t a (b + 1))) else none
  | _, _ => none

/-- tryParseJson of 0chat.js on a string reply: plain parse, then a
fenced json block (skipped when the capture is empty), then the
brace-slice recovery. -/
def tryParseJson0 (text : String) : Option Json :=
  match jsonParseModel text with
  | some j => some j
  | none =>
    match fenceCapture text.toList with
    | some cap =>
      if cap = [] then braceSliceParse text
      else
        match jsonParseModel (String.mk cap) with
        | some j => some j
        | none => braceSliceParse text
    | none => braceSliceParse text

/-- One tool_calls entry of mapJsonToSse: a function/shell call with an
array command becomes a local shell item, a function/update_plan call a
generic function call, and anything else an assistant message holding the
entry JSON-stringified. -/
def mapToolCall0 (tc : Json) : List Ev :=
  match tc.getField "type", tc.getField "name" with
  | some (.str "function"), some (.str "shell") =>
    (match getFieldOpt (tc.getField "arguments") "command" with
     | some (.arr l) => [Ev.itemLocalShellCall (Json.arr l).stringifyJS]
     | _ => [Ev.itemMessage tc.stringifyJS])
  | some (.str "function"), some (.str "update_plan") =>
    [Ev.itemFunctionCall "update_plan"
      (match tc.getField "arguments" with
       | some a => if a.isNull then (Json.obj []).stringifyJS else a.stringifyJS
       | none => (Json.obj []).stringifyJS)]
  | _, _ => [Ev.itemMessage tc.stringifyJS]

/-- mapJsonToSse of 0chat.js: trimmed reasoning summary delta, tool_calls
entries, then text-typed content elements as messages. -/
def mapJsonToSse (obj : Json) : List Ev :=
  (match getFieldOpt (obj.getField "reasoning") "summary" with
   | some (.str s) => if jsTrim s ≠ "" then [Ev.reasoningSummaryDelta (jsTrim s)] else []
   | _ => []) ++
  (match obj.getField "tool_calls" with
   | some (.arr ts) => ts.flatMap mapToolCall0
   | _ => []) ++
  (match obj.getField "content" with
   | some (.arr cs) =>
     cs.flatMap (fun c =>
       match c.getField "type", c.getField "text" with
       | some (.str "text"), some (.str t) => [Ev.itemMessage t]
       | _, _ => [])
   | _ => [])

/-- The 0chat.js /v1/responses handler after the upstream reply arrived:
created, then the mapped JSON events or a single raw-text message, then
completed with zeroed usage and the same response identifier. -/
def chat0Respond (llmReply : String) (rid : String) : List Ev :=
  Ev.created (some rid) ::
    ((match tryParseJson0 llmReply with
      | some obj => mapJsonToSse obj
      | none => [Ev.itemMessage llmReply]) ++
     [Ev.completed (some rid) (some zeroUsage)])

/-! Qwen bridge (part_001): findPatchBlocks, tryParseJson,
emitToolCallsAndEnd and the /v1/responses handler. -/

def beginMarker : List Char := "*** Begin Patch".toList
def endMarker : List Char := "*** End Patch".toList

def beginMarkerStr : String := "*** Begin Patch"
def endMarkerStr : String := "*** End Patch"

/-- The scanning loop of findPatchBlocks. Fuel bounds the iteration count
(every step advances the cursor past an end marker, so text length plus
one always suffices). -/
def findPatchBlocksAux (t : List Char) : Nat → Nat → List (List Char)
  | 0, _ => []
  | fuel + 1, idx =>
    match indexOfFrom beginMarker t idx with
    | none => []
    | some s =>
      match indexOfFrom endMarker t s with
      | none => []
      | some e =>
        extractSpan t s (e + endMarker.length) ::
          findPatchBlocksAux t fuel (e + endMarker.length)

/-- findPatchBlocks of part_001: every complete begin/end-bounded span,
scanned left to right, resuming after each extracted block; a begin with
no following end terminates the scan without emitting. -/
def findPatchBlocks (t : List Char) : List (List Char) :=
  findPatchBlocksAux t (t.length + 1) 0

/-- The scan of findPatchBlocks started at cursor position idx (the
whole extractor is the scan from position zero). -/
def findPatchBlocksFrom (t : List Char) (idx : Nat) : List (List Char) :=
  findPatchBlocksAux t (t.length + 1) idx

/-- stripJsonFence of part_001: trim, and when the text starts with a
fence, drop the first line and cut at the last fence, trimming again. -/
def stripJsonFence (text : String) : String :=
  let t := jsTrim text
  let tl := t.toList
  if fenceOpen.isPrefixOf tl then
    match indexOfFrom ['\n'] tl 0 with
    | some firstNl =>
      let withoutFence := tl.drop (firstNl + 1)
      (match lastIndexOfSub fenceOpen withoutFence with
       | some endFence => jsTrim (String.mk (withoutFence.take endFence))
       | none => t)
    | none => t
  else t

/-- tryParseJson of part_001: strip a fence, parse, else parse the span
between the outermost braces. -/
def tryParseJsonBridge (text : String) : Option Json :=
  let t := stripJsonFence text
  match jsonParseModel t with
  | some j => some j
  | none =>
    let tl := t.toList
    match indexOfFrom [lbrace] tl 0, lastIndexOfChar rbrace tl with
    | some start, some e =>
        if e > start then jsonParseModel (String.mk (extractSpan tl start (e + 1)))
        else none
    | _, _ => none

/-- Whether a tool_calls entry is named apply_patch (strict string
comparison, everything else is skipped with a log line). -/
def tcNameIsApplyPatch (tc : Json) : Bool :=
  match tc.getField "name" with
  | some (.str s) => s = "apply_patch"
  | _ => false

/-- The input string of a tool_calls entry: arguments.input when
arguments is an object holding a string there. -/
def tcInputOf (tc : Json) : Option String :=
  match getFieldOpt (tc.getField "arguments") "input" with
  | some (.str s) => some s
  | _ => none

/-- The apply_patch function-call item the bridge emits, its arguments
the JSON-stringified object holding the patch input. -/
def applyPatchCallEv (inp : String) : Ev :=
  Ev.itemFunctionCall "apply_patch" (Json.obj [("input", Json.str inp)]).stringifyJS

/-- The entry loop of emitToolCallsAndEnd: skip entries not named
apply_patch or without a marker-bounded input string, emit the first
qualifying entry and break. -/
def toolLoop : List Json → List Ev
  | [] => []
  | tc :: rest =>
    if tcNameIsApplyPatch tc = false then toolLoop rest
    else
      match tcInputOf tc with
      | some inp =>
        if includesStr inp beginMarkerStr && includesStr inp endMarkerStr then
          [applyPatchCallEv inp]
        else toolLoop rest
      | none => toolLoop rest

/-- A qualifying entry: named apply_patch with an input string holding
both markers. -/
def tcQualifies (tc : Json) : Bool :=
  tcNameIsApplyPatch tc &&
  (match tcInputOf tc with
   | some inp => includesStr inp beginMarkerStr && includesStr inp endMarkerStr
   | none => false)

/-- Input of the first qualifying tool_calls entry. -/
def firstQualifyingInput (tcs : List Json) : Option String :=
  (tcs.find? tcQualifies).bind tcInputOf

/-- The tool_calls list of a parsed bridge reply (empty when absent or
not an array). -/
def bridgeToolCallsOf (parsed : Json) : List Json :=
  match parsed.getField "tool_calls" with
  | some (.arr l) => l
  | _ => []

/-- The patch the bridge synthesizes for a detected file-update intent. -/
def synthPatch (p : String) : String :=
  "*** Begin Patch\n*** Update File: " ++ p ++
    "\n@@\n+function subtract(a, b) \x7b return a - b; \x7d\n+\n+function multiply(a, b) \x7b return a * b; \x7d\n*** End Patch"

/-- emitToolCallsAndEnd of part_001: the first qualifying apply_patch
entry of parsed.tool_calls, else (when nothing was emitted) one
synthesized apply_patch call for a detected file-update intent, then the
completed event. The intent argument carries the path captured from the
user text by detectFileUpdateIntent. -/
def emitToolCallsAndEnd (parsed : Json) (intent : Option String) (rid : String) :
    List Ev :=
  let loopEvs := toolLoop (bridgeToolCallsOf parsed)
  (if loopEvs.isEmpty then
    match intent with
    | some p => [applyPatchCallEv (synthPatch p)]
    | none => []
  else loopEvs) ++ [Ev.completed (some rid) none]

/-- Plain-text fallback of the bridge handler: surface the first textual
patch block as an apply_patch call, else nothing. -/
def patchFallbackEvs (fullText : String) : List Ev :=
  match findPatchBlocks fullText.toList with
  | [] => []
  | p :: _ => [applyPatchCallEv (String.mk p)]

/-- The truthiness guard parsed.tool_calls or parsed.message of the
bridge handler. -/
def parsedHasToolsOrMessage (p : Json) : Bool :=
  jsTruthyOpt (p.getField "tool_calls") || jsTruthyOpt (p.getField "message")

/-- The bridge /v1/responses handler outcome: created with an empty
response payload, then on upstream failure an assistant message holding
the error text and a completed event, else the parsed tool-call emission
or the plain-text patch fallback followed by completed. The model renders
the run in which the accumulated stream is processed once (the
incremental early-parse path calls the same emitToolCallsAndEnd, and the
eight-second fallback timer is time-dependent and outside the model);
rid and errRid stand for the fresh random identifiers of each path. -/
def bridgeRespond (intent : Option String) (upstream : Except String String)
    (rid errRid : String) : List Ev :=
  Ev.created none ::
    (match upstream with
     | .error msg =>
       [Ev.itemMessage ("Error: " ++ (if msg = "" then "Unknown error" else msg)),
        Ev.completed (some errRid) none]
     | .ok fullText =>
       match tryParseJsonBridge fullText with
       | some parsed =>
         if parsedHasToolsOrMessage parsed then emitToolCallsAndEnd parsed intent rid
         else patchFallbackEvs fullText ++ [Ev.completed (some rid) none]
       | none => patchFallbackEvs fullText ++ [Ev.completed (some rid) none])

/-! Mock OpenAI proxy (mock-openai/openai-proxy.js): handleResponses. -/

/-- Upstream failure data: the optional err.response.data.error field and
the optional err.message. -/
structure UpstreamErr where
  dataError : Option String
  message : Option String
deriving DecidableEq, Repr

/-- JS a || d on an optional string (empty counts as falsy). -/
def jsOrStr (o : Option String) (d : String) : String :=
  match o with
  | some s => if s = "" then d else s
  | none => d

/-- The failure message chain err.response.data.error, else err.message,
else the Upstream error literal. -/
def errMsgOf (e : UpstreamErr) : String :=
  jsOrStr e.dataError (jsOrStr e.message "Upstream error")

/-- The JSON shapes the proxy recognizes as a patch instruction. -/
def proxyPatchOfShapes (o : Json) : Option String :=
  match o.getField "type", o.getField "patch" with
  | some (.str "apply_patch"), some (.str p) => some p
  | _, _ =>
    match o.getField "action", o.getField "patch" with
    | some (.str "apply_patch"), some (.str p) => some p
    | _, _ =>
      match o.getField "apply_patch" with
      | some (.str p) => some p
      | _ => none

/-- First match of the lazy begin-to-end patch regex: the first begin
marker followed by the nearest end marker (the two markers cannot
overlap, so the regex backtracking never helps). -/
def regexFirstPatch (t : List Char) : Option (List Char) :=
  match indexOfFrom beginMarker t 0 with
  | none => none
  | some s =>
    match indexOfFrom endMarker t (s + beginMarker.length) with
    | some e => some (extractSpan t s (e + endMarker.length))
    | none => none

/-- Slice a character list into chunks of 400 (the delta chunk size). -/
def chunks400Aux : Nat → List Char → List (List Char)
  | 0, _ => []
  | _, [] => []
  | f + 1, cs => cs.take 400 :: chunks400Aux f (cs.drop 400)

def chunks400 (cs : List Char) : List (List Char) := chunks400Aux (cs.length + 1) cs

/-- handleResponses of the mock proxy: created; on upstream failure a
failed event with the chained message then completed with zeroed usage;
on success the strict-JSON patch mapping (when enabled), else the
embedded-patch heuristic, else chunked deltas and a message item; then
completed with zeroed usage. upstream carries the outcome of the
forwarded chat call, expectJson the PROXY_EXPECT_JSON toggle. -/
def handleResponses (upstream : Except UpstreamErr String) (expectJson : Bool)
    (rid : String) : List Ev :=
  Ev.created (some rid) ::
    (match upstream with
     | .error e =>
       [Ev.failed (errMsgOf e), Ev.completed (some rid) (some zeroUsage)]
     | .ok fullText =>
       let step1 : Option (List Ev) × String :=
         if expectJson then
           match jsonParseModel fullText with
           | some o =>
             match proxyPatchOfShapes o with
             | some patch => (some [Ev.itemCustomToolCall "apply_patch" patch], fullText)
             | none =>
               (none,
                match o.getField "text" with
                | some (.str s) => s
                | _ => fullText)
           | none => (none, fullText)
         else (none, fullText)
       (match step1 with
        | (some evs, _) => evs
        | (none, text) =>
          match regexFirstPatch text.toList with
          | some patch => [Ev.itemCustomToolCall "apply_patch" (String.mk patch)]
          | none =>
            (chunks400 text.toList).map (fun c => Ev.outputTextDelta (String.mk c)) ++
              [Ev.itemMessage text]) ++
       [Ev.completed (some rid) (some zeroUsage)])

/-! OAuth/PKCE login and credential store (test_gpt.js, gg.js). -/

/-- UTF-8 encoding of one character. -/
def utf8EncodeChar (c : Char) : List Nat :=
  let n := c.toNat
  if n < 128 then [n]
  else if n < 2048 then [192 + n / 64, 128 + n % 64]
  else if n < 65536 then [224 + n / 4096, 128 + n / 64 % 64, 128 + n % 64]
  else [240 + n / 262144, 128 + n / 4096 % 64, 128 + n / 64 % 64, 128 + n % 64]

/-- UTF-8 encoding of a string (what the SHA-256 update consumes). -/
def utf8Encode (s : String) : List Nat := s.toList.flatMap utf8EncodeChar

/-- genPkce of test_gpt.js: the verifier is the base64url encoding of the
48 random bytes rnd, the challenge the base64url encoding of the SHA-256
digest of the verifier. The digest is an abstract byte-function
parameter; randomness is the rnd argument. -/
def genPkce (rnd : List Nat) (sha256 : List Nat → List Nat) : String × String :=
  let verifier := base64url rnd
  let challenge := base64url (sha256 (utf8Encode verifier))
  (verifier, challenge)

/-- genState of test_gpt.js: base64url of 24 random bytes. -/
def genState (rnd : List Nat) : String := base64url rnd

/-- Decoding of a JWT segment: base64url to standard base64, Node base64
decode, utf8, JSON.parse; none models a parse throw. -/
def decodeJwtSegment (seg : String) : Option Json :=
  jsonParseModel (String.mk (utf8Decode (b64decodeNode (urlToStd seg).toList)))

/-- parseJwtClaims of test_gpt.js: the empty object when fewer than two
dot-separated segments, else the decoded second segment, the empty object
again when the decode throws or yields a falsy value. -/
def tgParseJwtClaims (raw : String) : Json :=
  let parts := splitDots raw
  if parts.length < 2 then Json.obj []
  else
    match decodeJwtSegment (parts.getD 1 "") with
    | some v => if jsTruthy v then v else Json.obj []
    | none => Json.obj []

/-- parseJwtClaims of gg.js: none models its null result, produced both
when the destructured second segment is missing (the replace call throws)
and when JSON.parse throws. -/
def ggParseJwtClaims (raw : String) : Option Json :=
  match (splitDots raw).get? 1 with
  | none => none
  | some seg => decodeJwtSegment seg

def authClaimsKey : String := "https://api.openai.com/auth"

/-- chatgpt_account_id extraction from an id_token value: claims come
from the JWT decoder when the token is a string (any other value makes
the decoder throw into its catch, yielding the empty claims object), and
the account id is taken only when it is a string. -/
def accountIdFromIdToken (idTok : Json) : Option String :=
  let claims : Json :=
    match idTok with
    | .str s => tgParseJwtClaims s
    | _ => Json.obj []
  let oa : Json :=
    match claims.getField authClaimsKey with
    | some v => if jsTruthy v then v else Json.obj []
    | none => Json.obj []
  match oa.getField "chatgpt_account_id" with
  | some (.str s) => some s
  | _ => none

/-- Credential record normalized by readAuthFromHome. Option fields hold
a value exactly when the script assigned a truthy one (falsy assignments
are observationally absent everywhere the record is used). -/
structure AuthCreds where
  apiKey : Option String
  token : Option Json
  accountId : Option Json
deriving Repr

/-- The return statement of readAuthFromHome: the record when apiKey or
token is truthy, else null. -/
def finishAuth (apiKey : Option String) (token accountId : Option Json) :
    Option AuthCreds :=
  if jsTruthyStrOpt apiKey || jsTruthyOpt token then
    some ⟨apiKey, token, accountId⟩
  else none

/-- readAuthFromHome of test_gpt.js applied to the parsed auth.json
content; none models both a missing and an unparsable file as well as
the null returned when neither an API key nor an access token is
present. -/
def readAuthFromHome (raw : Option Json) : Option AuthCreds :=
  match raw with
  | none => none
  | some r =>
    let apiKey : Option String :=
      match r.getField "OPENAI_API_KEY" with
      | some (.str s) => if jsTrim s ≠ "" then some (jsTrim s) else none
      | _ => none
    let token : Option Json :=
      match getFieldOpt (r.getField "tokens") "access_token" with
      | some v => if jsTruthy v then some v else none
      | none => none
    let accountId0 : Option Json :=
      match getFieldOpt (r.getField "tokens") "id_token" with
      | some v =>
        if jsTruthy v then (accountIdFromIdToken v).map Json.str else none
      | none => none
    let accountId : Option Json :=
      match accountId0 with
      | some v => some v
      | none =>
        match getFieldOpt (r.getField "tokens") "account_id" with
        | some v => if jsTruthy v then some v else none
        | none => none
    finishAuth apiKey token accountId

/-- Credential record normalized by readSessionJson. -/
structure SessCreds where
  token : Option Json
  accountId : Option Json
  apiKey : Option Json
deriving Repr

/-- The return statement of readSessionJson: the record when the
normalized token is truthy, else null. -/
def finishSession (token accountId apiKey : Option Json) : Option SessCreds :=
  if jsTruthyOpt token then some ⟨token, accountId, apiKey⟩ else none

/-- readSessionJson of test_gpt.js applied to the parsed session.json
content: explicit token/accountId/apiKey string fields first, then the
legacy fallbacks (tokens.access_token or access_token; tokens.account_id
or id_token claims; OPENAI_API_KEY trimmed), returned only when the
normalized access token is truthy. -/
def readSessionJson (raw : Option Json) : Option SessCreds :=
  match raw with
  | none => none
  | some r =>
    let token0 : Option Json :=
      match r.getField "token" with
      | some (.str s) => some (Json.str s)
      | _ => none
    let accountId0 : Option Json :=
      match r.getField "accountId" with
      | some (.str s) => some (Json.str s)
      | _ => none
    let apiKey0 : Option Json :=
      match r.getField "apiKey" with
      | some (.str s) => some (Json.str s)
      | _ => none
    let token1 : Option Json :=
      if jsTruthyOpt token0 then token0
      else
        match getFieldOpt (r.getField "tokens") "access_token" with
        | some v =>
          if jsTruthy v then some v
          else
            (match r.getField "access_token" with
             | some w => if jsTruthy w then some w else none
             | none => none)
        | none =>
          match r.getField "access_token" with
          | some w => if jsTruthy w then some w else none
          | none => none
    let accountId1 : Option Json :=
      if jsTruthyOpt accountId0 then accountId0
      else
        match getFieldOpt (r.getField "tokens") "account_id" with
        | some v => if jsTruthy v then some v else none
        | none => none
    let accountId2 : Option Json :=
      if jsTruthyOpt accountId1 then accountId1
      else
        match getFieldOpt (r.getField "tokens") "id_token" with
        | some v =>
          if jsTruthy v then
            (match accountIdFromIdToken v with
             | some s => some (Json.str s)
             | none => accountId1)
          else accountId1
        | none => accountId1
    let apiKey1 : Option Json :=
      if jsTruthyOpt apiKey0 then apiKey0
      else
        match r.getField "OPENAI_API_KEY" with
        | some (.str s) => if jsTrim s ≠ "" then some (Json.str (jsTrim s)) else none
        | _ => none
    finishSession token1 accountId2 apiKey1

/-- The credential gate at the top of askQuestion: false exactly when
there is no session or the session has neither apiKey nor token (the
No credentials provided throw). -/
def askQuestionCredsOk (session : Option SessCreds) : Bool :=
  match session with
  | none => false
  | some s => jsTruthyOpt s.apiKey || jsTruthyOpt s.token

/-- Field-presence validation done by exchangeCodeForTokens on a 2xx
token response: id_token and refresh_token must be truthy. The argument
carries the already-resolved HTTP outcome (error for non-2xx or
transport failure). -/
def exchangeCodeForTokensModel (resp : Except String Json) : Except String Json :=
  match resp with
  | .error e => .error e
  | .ok j =>
    if !jsTruthyOpt (j.getField "id_token") then .error "No id_token in token response"
    else if !jsTruthyOpt (j.getField "refresh_token") then
      .error "No refresh_token in token response"
    else .ok j

/-- Validation done by exchangeIdTokenForApiKey: the access_token of the
exchange response is the API key and must be truthy. -/
def exchangeIdTokenForApiKeyModel (resp : Except String Json) : Except String String :=
  match resp with
  | .error e => .error e
  | .ok j =>
    match j.getField "access_token" with
    | some (.str s) => if s ≠ "" then .ok s else .error "API key exchange failed"
    | _ => .error "API key exchange failed"

/-- The record writeSessionJson persists (savedAt timestamp omitted). -/
structure SavedSession where
  token : String
  accountId : Option String
  apiKey : Option String
deriving DecidableEq, Repr

/-- saveTokens of test_gpt.js: account id from the id_token claims, then
the session record written to disk. -/
def saveTokensModel (idToken accessToken : String) (maybeApiKey : Option String) :
    SavedSession :=
  ⟨accessToken, accountIdFromIdToken (Json.str idToken), maybeApiKey⟩

/-- Observable outcome of one request to the login callback listener:
the HTTP status sent, the session record persisted by this request (none
when nothing is written), and whether listener shutdown was scheduled. -/
structure HandlerResult where
  status : Nat
  persisted : Option SavedSession
  closing : Bool
deriving DecidableEq, Repr

/-- The request handler of startLoginServerAndAuth. expectedState is the
session state minted before listening; code and gotState are the query
parameters (none models an absent parameter); tokenResp and apiKeyResp
carry the resolved outcomes of the two token-endpoint calls. A missing
or empty code, or a state differing from the expected one, answers 400
and neither persists nor closes; an exchange failure surfaces as the 500
of the outer catch; success persists the session, redirects with 302 and
schedules shutdown. -/
def loginCallbackHandler (expectedState : String) (path : String)
    (code gotState : Option String)
    (tokenResp : Except String Json) (apiKeyResp : Except String Json) :
    HandlerResult :=
  if path = "/auth/callback" then
    let codeOk : Bool :=
      match code with
      | some c => c ≠ ""
      | none => false
    if !codeOk || decide (gotState ≠ some expectedState) then
      ⟨400, none, false⟩
    else
      match exchangeCodeForTokensModel tokenResp with
      | .error _ => ⟨500, none, false⟩
      | .ok toks =>
        let idTok : String :=
          match toks.getField "id_token" with
          | some (.str s) => s
          | _ => ""
        let accTok : String :=
          match toks.getField "access_token" with
          | some (.str s) => s
          | _ => ""
        let apiKey : Option String :=
          match exchangeIdTokenForApiKeyModel apiKeyResp with
          | .ok k => some k
          | .error _ => none
        ⟨302, some (saveTokensModel idTok accTok apiKey), true⟩
  else if path = "/success" then ⟨200, none, false⟩
  else ⟨404, none, false⟩

/-! Structural lemmas about the emitted event lists. -/

theorem nonTerminal_iff (e : Ev) :
    nonTerminal e = true ↔ e.isCreated = false ∧ e.isCompleted = false := by
  simp [nonTerminal]

theorem filter_isCreated_eq_nil {l : List Ev}
    (h : ∀ e ∈ l, nonTerminal e = true) : l.filter Ev.isCreated = [] :=
  List.filter_eq_nil_iff.mpr fun e he => by
    have h2 := (nonTerminal_iff e).mp (h e he)
    simp [h2.1]

theorem filter_isCompleted_eq_nil {l : List Ev}
    (h : ∀ e ∈ l, nonTerminal e = true) : l.filter Ev.isCompleted = [] :=
  List.filter_eq_nil_iff.mpr fun e he => by
    have h2 := (nonTerminal_iff e).mp (h e he)
    simp [h2.2]

theorem orderInvariant_shape (a b : Ev) (mid : List Ev)
    (ha1 : a.isCreated = true) (ha2 : a.isCompleted = false)
    (hb1 : b.isCompleted = true) (hb2 : b.isCreated = false)
    (hmid : ∀ e ∈ mid, nonTerminal e = true) :
    orderInvariant (a :: (mid ++ [b])) := by
  refine ⟨?_, ?_, ⟨a, rfl, ha1⟩, ⟨b, ?_, hb1⟩⟩
  · simp [List.filter_cons, List.filter_append, ha1, hb2, filter_isCreated_eq_nil hmid]
  · simp [List.filter_cons, List.filter_append, ha2, hb1, filter_isCompleted_eq_nil hmid]
  · have h : a :: (mid ++ [b]) = (a :: mid) ++ [b] := rfl
    rw [h, List.getLast?_concat]

theorem nonTerminal_pushAssistantText (t : String) :
    ∀ e ∈ pushAssistantText t, nonTerminal e = true := by
  intro e he
  unfold pushAssistantText at he
  split at he <;> simp_all [nonTerminal, Ev.isCreated, Ev.isCompleted]

theorem nonTerminal_summaryEvs (j : Json) :
    ∀ e ∈ summaryEvsOf j, nonTerminal e = true := by
  intro e he
  unfold summaryEvsOf at he
  repeat split at he
  all_goals simp_all [nonTerminal, Ev.isCreated, Ev.isCompleted]

theorem nonTerminal_textElemEvs (cs : List Json) :
    ∀ e ∈ textElemEvs cs, nonTerminal e = true := by
  intro e he
  unfold textElemEvs at he
  obtain ⟨c, _, he2⟩ := List.mem_flatMap.mp he
  repeat split at he2
  all_goals first
    | exact nonTerminal_pushAssistantText _ _ he2
    | simp_all

theorem nonTerminal_contentEvs (j : Json) :
    ∀ e ∈ contentEvsOf j, nonTerminal e = true := by
  intro e he
  unfold contentEvsOf at he
  repeat split at he
  all_goals first
    | exact nonTerminal_pushAssistantText _ _ he
    | exact nonTerminal_textElemEvs _ _ he
    | simp_all

theorem nonTerminal_outputElemEvs (os : List Json) :
    ∀ e ∈ outputElemEvs os, nonTerminal e = true := by
  intro e he
  unfold outputElemEvs at he
  obtain ⟨c, _, he2⟩ := List.mem_flatMap.mp he
  repeat split at he2
  all_goals first
    | exact nonTerminal_pushAssistantText _ _ he2
    | simp_all

theorem nonTerminal_outputEvs (j : Json) :
    ∀ e ∈ outputEvsOf j, nonTerminal e = true := by
  intro e he
  unfold outputEvsOf at he
  repeat split at he
  all_goals first
    | exact nonTerminal_pushAssistantText _ _ he
    | exact nonTerminal_outputElemEvs _ _ he
    | simp_all

theorem emitToolCall_singleton (n a : Option Json) :
    ∃ x, emitToolCall n a = [x] ∧ x.isToolCall = true := by
  unfold emitToolCall
  dsimp only
  repeat' split
  all_goals exact ⟨_, rfl, rfl⟩

theorem nonTerminal_of_isToolCall {e : Ev} (h : e.isToolCall = true) :
    nonTerminal e = true := by
  cases e <;> simp_all [Ev.isToolCall, nonTerminal, Ev.isCreated, Ev.isCompleted]

theorem nonTerminal_emitToolCall (n a : Option Json) :
    ∀ e ∈ emitToolCall n a, nonTerminal e = true := by
  intro e he
  obtain ⟨x, hx, hx2⟩ := emitToolCall_singleton n a
  rw [hx] at he
  simp at he
  subst he
  exact nonTerminal_of_isToolCall hx2

theorem nonTerminal_toolCallEvs (j : Json) :
    ∀ e ∈ toolCallEvsOf j, nonTerminal e = true := by
  intro e he
  unfold toolCallEvsOf at he
  by_cases h1 : (partZeroToolsOf j).length > 0
  · rw [if_pos h1] at he
    obtain ⟨c, _, he2⟩ := List.mem_flatMap.mp he
    exact nonTerminal_emitToolCall _ _ _ he2
  · rw [if_neg h1] at he
    by_cases h2 : (jsTruthy j && (firstTruthyField j toolNameKeys).isSome) = true
    · rw [if_pos h2] at he
      exact nonTerminal_emitToolCall _ _ _ he
    · rw [if_neg h2] at he
      simp at he

theorem nonTerminal_sendCodexResponse_mid (j : Json) :
    ∀ e ∈ (summaryEvsOf j ++
      (if isFinalOf j then pushAssistantText (finalMsgOf j)
       else contentEvsOf j ++ outputEvsOf j ++ toolCallEvsOf j)),
      nonTerminal e = true := by
  intro e he
  rcases List.mem_append.mp he with h | h
  · exact nonTerminal_summaryEvs _ _ h
  · split at h
    · exact nonTerminal_pushAssistantText _ _ h
    · rcases List.mem_append.mp h with h2 | h2
      · rcases List.mem_append.mp h2 with h3 | h3
        · exact nonTerminal_contentEvs _ _ h3
        · exact nonTerminal_outputEvs _ _ h3
      · exact nonTerminal_toolCallEvs _ _ h2

theorem nonTerminal_mapToolCall0 (tc : Json) :
    ∀ e ∈ mapToolCall0 tc, nonTerminal e = true := by
  intro e he
  unfold mapToolCall0 at he
  repeat split at he
  all_goals simp_all [nonTerminal, Ev.isCreated, Ev.isCompleted]

theorem nonTerminal_mapJsonToSse (obj : Json) :
    ∀ e ∈ mapJsonToSse obj, nonTerminal e = true := by
  intro e he
  unfold mapJsonToSse at he
  rcases List.mem_append.mp he with h | h
  · rcases List.mem_append.mp h with h2 | h2
    · repeat split at h2
      all_goals simp_all [nonTerminal, Ev.isCreated, Ev.isCompleted]
    · repeat split at h2
      all_goals first
        | (obtain ⟨c, _, he2⟩ := List.mem_flatMap.mp h2
           exact nonTerminal_mapToolCall0 _ _ he2)
        | simp_all
  · repeat split at h
    all_goals first
      | (obtain ⟨c, _, he2⟩ := List.mem_flatMap.mp h
         (repeat split at he2) <;>
           simp_all [nonTerminal, Ev.isCreated, Ev.isCompleted])
      | simp_all

theorem nonTerminal_chat0_mid (reply : String) :
    ∀ e ∈ (match tryParseJson0 reply with
           | some obj => mapJsonToSse obj
           | none => [Ev.itemMessage reply]),
      nonTerminal e = true := by
  intro e he
  split at he
  · exact nonTerminal_mapJsonToSse _ _ he
  · simp_all [nonTerminal, Ev.isCreated, Ev.isCompleted]

theorem firstQualifyingInput_cons (tc : Json) (rest : List Json) :
    firstQualifyingInput (tc :: rest) =
      if tcQualifies tc = true then tcInputOf tc else firstQualifyingInput rest := by
  by_cases h : tcQualifies tc = true
  · rw [if_pos h]
    unfold firstQualifyingInput
    rw [List.find?_cons_of_pos _ h]
    rfl
  · rw [if_neg h]
    unfold firstQualifyingInput
    rw [List.find?_cons_of_neg _ (by simpa using h)]

theorem toolLoop_eq (tcs : List Json) :
    toolLoop tcs =
      match firstQualifyingInput tcs with
      | some inp => [applyPatchCallEv inp]
      | none => [] := by
  induction tcs with
  | nil => rfl
  | cons tc rest ih =>
    simp only [toolLoop, firstQualifyingInput_cons]
    by_cases hn : tcNameIsApplyPatch tc = true
    · cases h2 : tcInputOf tc with
      | none =>
        have hq : tcQualifies tc = false := by
          unfold tcQualifies
          rw [h2]
          simp
        simp [hn, h2, hq, ih]
      | some inp =>
        by_cases h3 : (includesStr inp beginMarkerStr && includesStr inp endMarkerStr) = true
        · have hq : tcQualifies tc = true := by
            unfold tcQualifies
            rw [hn, h2]
            simpa using h3
          simp [hn, h2, hq, h3, applyPatchCallEv]
        · have hq : tcQualifies tc = false := by
            unfold tcQualifies
            rw [hn, h2]
            simpa using h3
          simp [hn, h2, hq, ih, h3]
    · have hn2 : tcNameIsApplyPatch tc = false := by simpa using hn
      have hq : tcQualifies tc = false := by
        unfold tcQualifies
        rw [hn2]
        simp
      simp [hn2, hq, ih]

theorem nonTerminal_toolLoop (tcs : List Json) :
    ∀ e ∈ toolLoop tcs, nonTerminal e = true := by
  intro e he
  rw [toolLoop_eq] at he
  split at he <;>
    simp_all [applyPatchCallEv, nonTerminal, Ev.isCreated, Ev.isCompleted]

theorem nonTerminal_patchFallback (t : String) :
    ∀ e ∈ patchFallbackEvs t, nonTerminal e = true := by
  intro e he
  unfold patchFallbackEvs at he
  split at he <;> simp_all [applyPatchCallEv, nonTerminal, Ev.isCreated, Ev.isCompleted]

theorem emitToolCallsAndEnd_shape (parsed : Json) (intent : Option String)
    (rid : String) :
    ∃ mid, emitToolCallsAndEnd parsed intent rid = mid ++ [Ev.completed (some rid) none] ∧
      ∀ e ∈ mid, nonTerminal e = true := by
  refine ⟨(if (toolLoop (bridgeToolCallsOf parsed)).isEmpty then
            (match intent with
             | some p => [applyPatchCallEv (synthPatch p)]
             | none => [])
           else toolLoop (bridgeToolCallsOf parsed)), rfl, ?_⟩
  intro e he
  split at he
  · split at he
    all_goals simp_all [applyPatchCallEv, nonTerminal, Ev.isCreated, Ev.isCompleted]
  · exact nonTerminal_toolLoop _ _ he

theorem bridgeRespond_shape (intent : Option String) (upstream : Except String String)
    (rid errRid : String) :
    ∃ mid cid,
      bridgeRespond intent upstream rid errRid =
        Ev.created none :: (mid ++ [Ev.completed (some cid) none]) ∧
      ∀ e ∈ mid, nonTerminal e = true := by
  cases upstream with
  | error msg =>
    refine ⟨[Ev.itemMessage ("Error: " ++ (if msg = "" then "Unknown error" else msg))],
      errRid, rfl, ?_⟩
    intro e he
    simp at he
    subst he
    rfl
  | ok fullText =>
    unfold bridgeRespond
    cases h : tryParseJsonBridge fullText with
    | none =>
      refine ⟨patchFallbackEvs fullText, rid, by simp [h], nonTerminal_patchFallback _⟩
    | some parsed =>
      by_cases hp : parsedHasToolsOrMessage parsed = true
      · obtain ⟨mid, hmid1, hmid2⟩ := emitToolCallsAndEnd_shape parsed intent rid
        exact ⟨mid, rid, by simp [h, hp, hmid1], hmid2⟩
      · refine ⟨patchFallbackEvs fullText, rid, ?_, nonTerminal_patchFallback _⟩
        simp [h, hp]

theorem getLast_cons_append (a b : Ev) (mid : List Ev) :
    (a :: (mid ++ [b])).getLast? = some b := by
  have h : a :: (mid ++ [b]) = (a :: mid) ++ [b] := rfl
  rw [h, List.getLast?_concat]

/-- C1 (amended): for every input, each of the three translators emits a
sequence that begins with exactly one created event and ends with exactly
one completed event; the fake-LLM translator and the generic adapter
carry the same response identifier (and zeroed usage) in the created and
completed events, while the Qwen bridge's created event carries no
response identifier (only its completed event carries one, and without a
usage structure). -/
theorem C1_order_invariant (json : Json) (reply rid0 rid1 rid2 errRid : String)
    (intent : Option String) (upstream : Except String String) :
    orderInvariant (sendCodexResponse json rid0) ∧
    (sendCodexResponse json rid0).head? = some (Ev.created (some rid0)) ∧
    (sendCodexResponse json rid0).getLast? =
      some (Ev.completed (some rid0) (some zeroUsage)) ∧
    orderInvariant (chat0Respond reply rid1) ∧
    (chat0Respond reply rid1).head? = some (Ev.created (some rid1)) ∧
    (chat0Respond reply rid1).getLast? =
      some (Ev.completed (some rid1) (some zeroUsage)) ∧
    orderInvariant (bridgeRespond intent upstream rid2 errRid) ∧
    (bridgeRespond intent upstream rid2 errRid).head? = some (Ev.created none) ∧
    ∃ i, (bridgeRespond intent upstream rid2 errRid).getLast? =
      some (Ev.completed (some i) none) := by
  obtain ⟨mid, cid, hb1, hb2⟩ := bridgeRespond_shape intent upstream rid2 errRid
  refine ⟨?_, rfl, ?_, ?_, rfl, ?_, ?_, ?_, ?_⟩
  · exact orderInvariant_shape _ _ _ rfl rfl rfl rfl (nonTerminal_sendCodexResponse_mid json)
  · exact getLast_cons_append _ _ _
  · exact orderInvariant_shape _ _ _ rfl rfl rfl rfl (nonTerminal_chat0_mid reply)
  · exact getLast_cons_append _ _ _
  · rw [hb1]
    exact orderInvariant_shape _ _ _ rfl rfl rfl rfl hb2
  · rw [hb1]
    rfl
  · exact ⟨cid, by rw [hb1]; exact getLast_cons_append _ _ _⟩

/-- C1 counterexample: at the Qwen bridge, the created event carries no
response identifier while the completed event carries a fresh one, so the
identifier equality asserted by the claim fails (concretely: upstream
failure with message boom, error-path identifier e). -/
theorem C1_counterexample :
    (bridgeRespond none (Except.error "boom") "r" "e").head? =
      some (Ev.created none) ∧
    (bridgeRespond none (Except.error "boom") "r" "e").getLast? =
      some (Ev.completed (some "e") none) ∧
    (Ev.created none).respId ≠ (Ev.completed (some "e") none).respId := by
  exact ⟨rfl, by decide, by decide⟩

/-! C2: finalization exclusivity. -/

theorem strFieldTruthy_ne_empty {j : Json} {k s : String}
    (h : strFieldTruthy j k = some s) : s ≠ "" := by
  unfold strFieldTruthy at h
  repeat' split at h
  all_goals simp_all

theorem contentArrayTextFallback_ne_empty {j : Json} {s : String}
    (h : contentArrayTextFallback j = some s) : s ≠ "" := by
  unfold contentArrayTextFallback at h
  repeat' split at h
  all_goals simp_all

theorem finalMsgOf_ne_empty (j : Json) : finalMsgOf j ≠ "" := by
  unfold finalMsgOf
  cases h1 : strFieldTruthy j "assistant_message" with
  | some s => simpa using strFieldTruthy_ne_empty h1
  | none =>
    cases h2 : strFieldTruthy j "output" with
    | some s => simpa using strFieldTruthy_ne_empty h2
    | none =>
      cases h3 : strFieldTruthy j "content" with
      | some s => simpa using strFieldTruthy_ne_empty h3
      | none =>
        cases h4 : contentArrayTextFallback j with
        | some s => simpa using contentArrayTextFallback_ne_empty h4
        | none => simp

theorem summaryEvs_filter (j : Json) :
    (summaryEvsOf j).filter Ev.isMessage = [] ∧
    (summaryEvsOf j).filter Ev.isToolCall = [] := by
  unfold summaryEvsOf
  repeat' split
  all_goals simp [Ev.isMessage, Ev.isToolCall]

/-- C2: when the envelope carries an explicit finalization flag, the
fake-LLM translator emits exactly one assistant-message event and zero
tool-call events, the message text being the first-match priority chain
assistant_message, output, content (string or first text element), and
the Done. fallback, with JS truthiness at each step (finalMsgOf). -/
theorem C2_finalization_exclusivity (json : Json) (rid : String)
    (h : isFinalOf json = true) :
    (sendCodexResponse json rid).filter Ev.isMessage =
      [Ev.itemMessage (finalMsgOf json)] ∧
    (sendCodexResponse json rid).filter Ev.isToolCall = [] := by
  unfold sendCodexResponse
  rw [if_pos h]
  have hpush : pushAssistantText (finalMsgOf json) =
      [Ev.itemMessage (finalMsgOf json)] := by
    unfold pushAssistantText
    rw [if_neg (finalMsgOf_ne_empty json)]
  rw [hpush]
  constructor
  · simp [List.filter_cons, List.filter_append, Ev.isMessage, Ev.isToolCall,
      (summaryEvs_filter json).1]
  · simp [List.filter_cons, List.filter_append, Ev.isMessage, Ev.isToolCall,
      (summaryEvs_filter json).2]

/-- C2 witness: a concrete final envelope with one tool call and an
output field emits exactly the message bye and no tool calls. -/
theorem C2_finalization_exclusivity_witness :
    isFinalOf (Json.obj [("final", Json.bool true), ("output", Json.str "bye"),
      ("tool_calls", Json.arr [Json.obj [("name", Json.str "shell"),
        ("arguments", Json.obj [("cmd", Json.str "ls")])]])]) = true ∧
    ((sendCodexResponse (Json.obj [("final", Json.bool true),
        ("output", Json.str "bye"),
        ("tool_calls", Json.arr [Json.obj [("name", Json.str "shell"),
          ("arguments", Json.obj [("cmd", Json.str "ls")])]])]) "w2").filter
        Ev.isMessage =
      [Ev.itemMessage (finalMsgOf (Json.obj [("final", Json.bool true),
        ("output", Json.str "bye"),
        ("tool_calls", Json.arr [Json.obj [("name", Json.str "shell"),
          ("arguments", Json.obj [("cmd", Json.str "ls")])]])]))] ∧
     (sendCodexResponse (Json.obj [("final", Json.bool true),
        ("output", Json.str "bye"),
        ("tool_calls", Json.arr [Json.obj [("name", Json.str "shell"),
          ("arguments", Json.obj [("cmd", Json.str "ls")])]])]) "w2").filter
        Ev.isToolCall = []) :=
  ⟨by decide, C2_finalization_exclusivity _ "w2" (by decide)⟩

/-! C3: textual patch extraction. -/

theorem indexOfFrom_some {pat t : List Char} {start i : Nat}
    (h : indexOfFrom pat t start = some i) :
    matchesAt pat t i = true ∧ start ≤ i := by
  unfold indexOfFrom at h
  have h1 := List.find?_some h
  have h2 := List.mem_of_find?_eq_some h
  rw [List.mem_filter] at h2
  exact ⟨h1, by simpa using h2.2⟩

theorem indexOfFrom_none_of_not_contains {pat t : List Char}
    (h : containsSub pat t = false) (start : Nat) :
    indexOfFrom pat t start = none := by
  unfold indexOfFrom
  apply List.find?_eq_none.mpr
  intro i hi
  rw [List.mem_filter] at hi
  unfold containsSub at h
  rw [List.any_eq_false] at h
  simpa using h i hi.1

theorem findPatchBlocksAux_spec (t : List Char) :
    ∀ (fuel idx : Nat),
      ∃ spans : List (Nat × Nat),
        findPatchBlocksAux t fuel idx =
          spans.map (fun p => extractSpan t p.1 p.2) ∧
        (∀ p ∈ spans, idx ≤ p.1 ∧ matchesAt beginMarker t p.1 = true ∧
          ∃ e, p.1 ≤ e ∧ matchesAt endMarker t e = true ∧
            p.2 = e + endMarker.length) ∧
        spans.Chain' (fun p q => p.2 ≤ q.1) := by
  intro fuel
  induction fuel with
  | zero => exact fun idx => ⟨[], rfl, by simp, by simp⟩
  | succ f ih =>
    intro idx
    simp only [findPatchBlocksAux]
    cases h1 : indexOfFrom beginMarker t idx with
    | none => exact ⟨[], rfl, by simp, by simp⟩
    | some s =>
      cases h2 : indexOfFrom endMarker t s with
      | none => exact ⟨[], by dsimp only; rw [h2]; rfl, by simp, by simp⟩
      | some e =>
        obtain ⟨spans, hmap, hall, hchain⟩ := ih (e + endMarker.length)
        obtain ⟨hm1, hs1⟩ := indexOfFrom_some h1
        obtain ⟨hm2, hs2⟩ := indexOfFrom_some h2
        refine ⟨(s, e + endMarker.length) :: spans, ?_, ?_, ?_⟩
        · dsimp only
          rw [h2]
          simp [hmap]
        · intro p hp
          rcases List.mem_cons.mp hp with rfl | hp2
          · exact ⟨hs1, hm1, e, hs2, hm2, rfl⟩
          · obtain ⟨hidx, hrest⟩ := hall p hp2
            exact ⟨by omega, hrest⟩
        · rw [List.chain'_cons']
          refine ⟨?_, hchain⟩
          intro q hq
          exact (hall q (List.mem_of_mem_head? hq)).1

theorem indexOfFrom_none_of_start_gt {pat t : List Char} {start : Nat}
    (h : t.length < start) : indexOfFrom pat t start = none := by
  unfold indexOfFrom
  apply List.find?_eq_none.mpr
  intro i hi
  rw [List.mem_filter] at hi
  have h1 : i < t.length + 1 := List.mem_range.mp hi.1
  have h2 : start ≤ i := by simpa using hi.2
  exact absurd rfl (by omega : ¬ i = i)

theorem findPatchBlocksAux_congr (t : List Char) :
    ∀ (fuel1 fuel2 idx : Nat), t.length < idx + fuel1 → t.length < idx + fuel2 →
      findPatchBlocksAux t fuel1 idx = findPatchBlocksAux t fuel2 idx := by
  intro fuel1
  induction fuel1 with
  | zero =>
    intro fuel2 idx h1 h2
    have hn : indexOfFrom beginMarker t idx = none :=
      indexOfFrom_none_of_start_gt (by omega)
    cases fuel2 with
    | zero => rfl
    | succ f2 => simp only [findPatchBlocksAux, hn]
  | succ f1 ih =>
    intro fuel2 idx h1 h2
    cases fuel2 with
    | zero =>
      have hn : indexOfFrom beginMarker t idx = none :=
        indexOfFrom_none_of_start_gt (by omega)
      simp only [findPatchBlocksAux, hn]
    | succ f2 =>
      simp only [findPatchBlocksAux]
      cases hb : indexOfFrom beginMarker t idx with
      | none => rfl
      | some s =>
        dsimp only
        cases he : indexOfFrom endMarker t s with
        | none => rfl
        | some e =>
          dsimp only
          have hs := (indexOfFrom_some hb).2
          have hee := (indexOfFrom_some he).2
          have h13 : endMarker.length = 13 := rfl
          rw [ih f2 (e + endMarker.length) (by omega) (by omega)]

/-- The fuel-free recursion satisfied by the scan: from any cursor, the
next block is the span from the next begin-marker occurrence through the
first end-marker occurrence at or after it (nothing when either marker is
missing), followed by the scan resumed just past that end marker. This
pins the extractor down completely — together with the soundness facts it
says the result is exactly the greedy list of complete bounded spans in
order of appearance. -/
theorem findPatchBlocksFrom_eq (t : List Char) (idx : Nat) :
    findPatchBlocksFrom t idx =
      match indexOfFrom beginMarker t idx with
      | none => []
      | some s =>
        match indexOfFrom endMarker t s with
        | none => []
        | some e =>
          extractSpan t s (e + endMarker.length) ::
            findPatchBlocksFrom t (e + endMarker.length) := by
  conv_lhs =>
    rw [show findPatchBlocksFrom t idx = findPatchBlocksAux t (t.length + 1) idx
      from rfl]
  simp only [findPatchBlocksAux]
  cases hb : indexOfFrom beginMarker t idx with
  | none => rfl
  | some s =>
    dsimp only
    cases he : indexOfFrom endMarker t s with
    | none => rfl
    | some e =>
      dsimp only
      have h13 : endMarker.length = 13 := rfl
      rw [findPatchBlocksAux_congr t t.length (t.length + 1)
        (e + endMarker.length) (by omega) (by omega)]
      rfl

/-- C3: the extractor returns exactly the complete marker-bounded spans,
in order of appearance. Soundness: every block is the literal substring
of the input from a begin-marker occurrence through the following
end-marker occurrence, markers included, the spans non-overlapping and in
order. A text with no end marker (in particular one holding an
unterminated begin marker) yields zero blocks. Completeness: the
extractor equals the scan from position zero, and that scan satisfies the
fuel-free greedy recursion (next begin, first end at or after it, resume
past the end marker) — so in particular a text containing a complete
bounded span yields that very span, markers included, as its first
block. -/
theorem C3_patch_extraction (t : List Char) :
    (∃ spans : List (Nat × Nat),
      findPatchBlocks t = spans.map (fun p => extractSpan t p.1 p.2) ∧
      (∀ p ∈ spans, matchesAt beginMarker t p.1 = true ∧
        ∃ e, p.1 ≤ e ∧ matchesAt endMarker t e = true ∧
          p.2 = e + endMarker.length) ∧
      spans.Chain' (fun p q => p.2 ≤ q.1)) ∧
    (containsSub endMarker t = false → findPatchBlocks t = []) ∧
    findPatchBlocks t = findPatchBlocksFrom t 0 ∧
    (∀ idx, findPatchBlocksFrom t idx =
      match indexOfFrom beginMarker t idx with
      | none => []
      | some s =>
        match indexOfFrom endMarker t s with
        | none => []
        | some e =>
          extractSpan t s (e + endMarker.length) ::
            findPatchBlocksFrom t (e + endMarker.length)) ∧
    (∀ s e, indexOfFrom beginMarker t 0 = some s →
      indexOfFrom endMarker t s = some e →
      findPatchBlocks t =
        extractSpan t s (e + endMarker.length) ::
          findPatchBlocksFrom t (e + endMarker.length)) := by
  refine ⟨?_, ?_, rfl, findPatchBlocksFrom_eq t, ?_⟩
  · obtain ⟨spans, h1, h2, h3⟩ := findPatchBlocksAux_spec t (t.length + 1) 0
    exact ⟨spans, h1, fun p hp => (h2 p hp).2, h3⟩
  · intro h
    unfold findPatchBlocks
    simp only [findPatchBlocksAux]
    cases h1 : indexOfFrom beginMarker t 0 with
    | none => rfl
    | some s =>
      dsimp only
      rw [indexOfFrom_none_of_not_contains h s]
  · intro s e hb he
    show findPatchBlocksFrom t 0 = _
    rw [findPatchBlocksFrom_eq t 0, hb]
    dsimp only
    rw [he]

/-- C3 witness: an unterminated begin marker yields zero patches, and a
text holding one complete span round-trips — the extractor returns
exactly that bounded substring, markers included. -/
theorem C3_patch_extraction_witness :
    containsSub endMarker ("x *** Begin Patch y".toList) = false ∧
    findPatchBlocks ("x *** Begin Patch y".toList) = [] ∧
    indexOfFrom beginMarker ("ab*** Begin Patch\nP\n*** End Patch cd".toList) 0 =
      some 2 ∧
    indexOfFrom endMarker ("ab*** Begin Patch\nP\n*** End Patch cd".toList) 2 =
      some 20 ∧
    findPatchBlocks ("ab*** Begin Patch\nP\n*** End Patch cd".toList) =
      extractSpan ("ab*** Begin Patch\nP\n*** End Patch cd".toList) 2
          (20 + endMarker.length) ::
        findPatchBlocksFrom ("ab*** Begin Patch\nP\n*** End Patch cd".toList)
          (20 + endMarker.length) ∧
    findPatchBlocks ("ab*** Begin Patch\nP\n*** End Patch cd".toList) =
      ["*** Begin Patch\nP\n*** End Patch".toList] :=
  ⟨by decide, (C3_patch_extraction _).2.1 (by decide), by decide, by decide,
   (C3_patch_extraction _).2.2.2.2 2 20 (by decide) (by decide), by decide⟩

/-! C4: shell argument normalization. -/

/-- C4: for every shell-like tool name and each of the four argument
shapes (command array, command string, cmd string, bare array), the
normalization yields the single command string ls -la, and emitToolCall
emits one generic function-call event named exec_command carrying that
command in its stringified arguments. -/
theorem C4_shell_normalization (name : String) (a : Json)
    (hn : name ∈ shellNames)
    (ha : a ∈ [Json.obj [("command", Json.arr [Json.str "ls", Json.str "-la"])],
               Json.obj [("command", Json.str "ls -la")],
               Json.obj [("cmd", Json.str "ls -la")],
               Json.arr [Json.str "ls", Json.str "-la"]]) :
    normalizeShellCommand (some a) = some "ls -la" ∧
    emitToolCall (some (Json.str name)) (some a) =
      [Ev.itemFunctionCall "exec_command" "\x7b\"cmd\":\"ls -la\"\x7d"] := by
  fin_cases hn <;> fin_cases ha <;> exact ⟨by decide, by decide⟩

/-- C4 witness: the shell name with the cmd-string shape. -/
theorem C4_shell_normalization_witness :
    "shell" ∈ shellNames ∧
    Json.obj [("cmd", Json.str "ls -la")] ∈
      [Json.obj [("command", Json.arr [Json.str "ls", Json.str "-la"])],
       Json.obj [("command", Json.str "ls -la")],
       Json.obj [("cmd", Json.str "ls -la")],
       Json.arr [Json.str "ls", Json.str "-la"]] ∧
    (normalizeShellCommand (some (Json.obj [("cmd", Json.str "ls -la")])) =
       some "ls -la" ∧
     emitToolCall (some (Json.str "shell"))
       (some (Json.obj [("cmd", Json.str "ls -la")])) =
       [Ev.itemFunctionCall "exec_command" "\x7b\"cmd\":\"ls -la\"\x7d"]) :=
  ⟨by decide, List.Mem.tail _ (List.Mem.tail _ (List.Mem.head _)),
    C4_shell_normalization "shell" _ (by decide)
      (List.Mem.tail _ (List.Mem.tail _ (List.Mem.head _)))⟩

/-! C5: upstream failure rendering. -/

/-- C5 counterexample: on an upstream failure, the Qwen bridge handler
cited by the claim emits no response.failed event at all — it sends an
assistant message holding the error text, and its completed event carries
no usage structure. -/
theorem C5_counterexample :
    ((bridgeRespond none (Except.error "connect ECONNREFUSED") "r1" "e1").filter
      Ev.isFailed) = [] ∧
    bridgeRespond none (Except.error "connect ECONNREFUSED") "r1" "e1" =
      [Ev.created none, Ev.itemMessage "Error: connect ECONNREFUSED",
       Ev.completed (some "e1") none] :=
  ⟨by decide, by decide⟩

/-- C5 (amended): when the upstream call fails, the mock proxy emits
created, then response.failed carrying the non-empty chained error
message, then completed with zeroed usage; the Qwen bridge instead emits
created, one assistant message holding the error text, then completed
without a usage structure — in both handlers the stream ends with
structured terminal events rather than a bare drop. -/
theorem C5_upstream_failure (e : UpstreamErr) (expectJson : Bool)
    (rid msg rid2 errRid : String) (intent : Option String) :
    handleResponses (Except.error e) expectJson rid =
      [Ev.created (some rid), Ev.failed (errMsgOf e),
       Ev.completed (some rid) (some zeroUsage)] ∧
    errMsgOf e ≠ "" ∧
    bridgeRespond intent (Except.error msg) rid2 errRid =
      [Ev.created none,
       Ev.itemMessage ("Error: " ++ (if msg = "" then "Unknown error" else msg)),
       Ev.completed (some errRid) none] := by
  refine ⟨rfl, ?_, rfl⟩
  unfold errMsgOf jsOrStr
  repeat' split
  all_goals simp_all

/-! C6: CSRF state rejection at the login callback. -/

/-- C6: a callback request whose state parameter differs from the
session's stored state, or whose code parameter is absent, is answered
with status 400, persists no credential record, and schedules no listener
shutdown — whatever the token-exchange outcomes would have been. -/
theorem C6_state_csrf_rejection (expectedState : String)
    (code gotState : Option String)
    (tokenResp apiKeyResp : Except String Json)
    (h : gotState ≠ some expectedState ∨ code = none) :
    loginCallbackHandler expectedState "/auth/callback" code gotState
      tokenResp apiKeyResp = ⟨400, none, false⟩ := by
  rcases h with h | h
  · simp [loginCallbackHandler, h]
  · subst h
    simp [loginCallbackHandler]

/-- C6 witness: expected state Y, received state X with a code present. -/
theorem C6_state_csrf_rejection_witness :
    ((some "X" : Option String) ≠ some "Y" ∨ (some "c" : Option String) = none) ∧
    loginCallbackHandler "Y" "/auth/callback" (some "c") (some "X")
      (Except.error "") (Except.error "") = ⟨400, none, false⟩ :=
  ⟨Or.inl (by decide),
    C6_state_csrf_rejection "Y" (some "c") (some "X") (Except.error "")
      (Except.error "") (Or.inl (by decide))⟩

/-! C7: PKCE generation. -/

theorem b64c_safe : ∀ i : Fin 64,
    urlSafeChar (urlMapChar (b64chars.getD i.1 'A')) = true ∧
    urlMapChar (b64chars.getD i.1 'A') ≠ '=' := by decide

theorem b64c_spec (n : Nat) :
    urlSafeChar (urlMapChar (b64c n)) = true ∧ urlMapChar (b64c n) ≠ '=' := by
  have h : n % 64 < 64 := Nat.mod_lt _ (by decide)
  exact b64c_safe ⟨n % 64, h⟩

theorem b64encode_shape : ∀ bs : List Nat,
    ∃ front k, b64encode bs = front ++ List.replicate k '=' ∧
      (∀ c ∈ front, ∃ m, c = b64c m) ∧ k ≤ 2
  | [] => ⟨[], 0, rfl, by simp, by omega⟩
  | [a] =>
    ⟨[b64c (a / 4), b64c (a % 4 * 16)], 2, rfl, by
      intro c hc
      rcases List.mem_cons.mp hc with rfl | hc2
      · exact ⟨_, rfl⟩
      · rcases List.mem_cons.mp hc2 with rfl | hc3
        · exact ⟨_, rfl⟩
        · simp at hc3, by omega⟩
  | [a, b] =>
    ⟨[b64c (a / 4), b64c (a % 4 * 16 + b / 16), b64c (b % 16 * 4)], 1, rfl, by
      intro c hc
      rcases List.mem_cons.mp hc with rfl | hc2
      · exact ⟨_, rfl⟩
      · rcases List.mem_cons.mp hc2 with rfl | hc3
        · exact ⟨_, rfl⟩
        · rcases List.mem_cons.mp hc3 with rfl | hc4
          · exact ⟨_, rfl⟩
          · simp at hc4, by omega⟩
  | a :: b :: c :: rest => by
    obtain ⟨front, k, h1, h2, h3⟩ := b64encode_shape rest
    refine ⟨b64c (a / 4) :: b64c (a % 4 * 16 + b / 16) :: b64c (b % 16 * 4 + c / 64) ::
      b64c (c % 64) :: front, k, ?_, ?_, h3⟩
    · simp only [b64encode, h1]
      simp
    · intro x hx
      rcases List.mem_cons.mp hx with rfl | hx2
      · exact ⟨_, rfl⟩
      · rcases List.mem_cons.mp hx2 with rfl | hx3
        · exact ⟨_, rfl⟩
        · rcases List.mem_cons.mp hx3 with rfl | hx4
          · exact ⟨_, rfl⟩
          · rcases List.mem_cons.mp hx4 with rfl | hx5
            · exact ⟨_, rfl⟩
            · exact h2 x hx5

theorem stripTrailingEq_spec (front : List Char) (k : Nat) (h : '=' ∉ front) :
    stripTrailingEq (front ++ List.replicate k '=') = front := by
  unfold stripTrailingEq
  rw [List.reverse_append, List.reverse_replicate]
  have hdrop : ∀ n : Nat,
      List.dropWhile (fun c => c = '=') (List.replicate n '=' ++ front.reverse) =
        front.reverse := by
    intro n
    induction n with
    | zero =>
      simp only [List.replicate, List.nil_append]
      cases hf : front.reverse with
      | nil => rfl
      | cons c cl =>
        have hc : c ∈ front := by
          have : c ∈ front.reverse := by rw [hf]; exact List.mem_cons_self _ _
          simpa using this
        have hne : ¬(c = '=') := fun he => h (he ▸ hc)
        simp [List.dropWhile_cons, hne]
    | succ n ih =>
      simp only [List.replicate, List.cons_append, List.dropWhile_cons]
      simpa using ih
  rw [hdrop, List.reverse_reverse]

theorem base64url_chars (bytes : List Nat) :
    ∀ c ∈ (base64url bytes).toList, urlSafeChar c = true := by
  obtain ⟨front, k, h1, h2, h3⟩ := b64encode_shape bytes
  intro c hc
  unfold base64url at hc
  rw [h1, List.map_append, List.map_replicate] at hc
  have hrep : urlMapChar '=' = '=' := by decide
  rw [hrep] at hc
  have hne : '=' ∉ front.map urlMapChar := by
    intro hmem
    obtain ⟨c0, hc0, hcc⟩ := List.mem_map.mp hmem
    obtain ⟨m, rfl⟩ := h2 c0 hc0
    exact (b64c_spec m).2 hcc
  rw [stripTrailingEq_spec _ _ hne] at hc
  have hc2 : c ∈ front.map urlMapChar := hc
  obtain ⟨c0, hc0, rfl⟩ := List.mem_map.mp hc2
  obtain ⟨m, rfl⟩ := h2 c0 hc0
  exact (b64c_spec m).1

/-- C7: the PKCE pair generated from 48 random bytes satisfies: the
challenge is the base64url encoding of the SHA-256 digest of the
verifier's UTF-8 bytes (so recomputing the one-way transform on the
verifier reproduces the challenge); the verifier is the base64url
encoding of the random bytes, which number at least 32; and both values
use only the URL-safe alphabet with no padding characters. -/
theorem C7_pkce_generation (rnd : List Nat) (sha256 : List Nat → List Nat)
    (h : rnd.length = 48) :
    (genPkce rnd sha256).2 =
      base64url (sha256 (utf8Encode (genPkce rnd sha256).1)) ∧
    (genPkce rnd sha256).1 = base64url rnd ∧
    32 ≤ rnd.length ∧
    (∀ c ∈ ((genPkce rnd sha256).1).toList, urlSafeChar c = true ∧ c ≠ '=') ∧
    (∀ c ∈ ((genPkce rnd sha256).2).toList, urlSafeChar c = true ∧ c ≠ '=') := by
  refine ⟨rfl, rfl, by omega, ?_, ?_⟩
  · intro c hc
    have hs := base64url_chars rnd c hc
    refine ⟨hs, ?_⟩
    intro he
    subst he
    exact absurd hs (by decide)
  · intro c hc
    have hs := base64url_chars (sha256 (utf8Encode (base64url rnd))) c hc
    refine ⟨hs, ?_⟩
    intro he
    subst he
    exact absurd hs (by decide)

/-- C7 witness: 48 concrete bytes with the identity in place of the
digest function. -/
theorem C7_pkce_generation_witness :
    (List.range 48).length = 48 ∧
    ((genPkce (List.range 48) (fun l => l)).2 =
      base64url ((fun l : List Nat => l)
        (utf8Encode (genPkce (List.range 48) (fun l => l)).1)) ∧
    (genPkce (List.range 48) (fun l => l)).1 = base64url (List.range 48) ∧
    32 ≤ (List.range 48).length ∧
    (∀ c ∈ ((genPkce (List.range 48) (fun l => l)).1).toList,
      urlSafeChar c = true ∧ c ≠ '=') ∧
    (∀ c ∈ ((genPkce (List.range 48) (fun l => l)).2).toList,
      urlSafeChar c = true ∧ c ≠ '=')) :=
  ⟨by decide, C7_pkce_generation (List.range 48) (fun l => l) (by decide)⟩

/-! C8: credential usability. -/

theorem finishAuth_usable {apiKey : Option String} {token accountId : Option Json}
    {out : AuthCreds} (h : finishAuth apiKey token accountId = some out) :
    (jsTruthyStrOpt out.apiKey || jsTruthyOpt out.token) = true := by
  unfold finishAuth at h
  split at h
  · rename_i hcond
    injection h with h2
    subst h2
    simpa using hcond
  · exact absurd h (by simp)

theorem finishSession_token {token accountId apiKey : Option Json}
    {sout : SessCreds} (h : finishSession token accountId apiKey = some sout) :
    jsTruthyOpt sout.token = true := by
  unfold finishSession at h
  split at h
  · rename_i hcond
    injection h with h2
    subst h2
    simpa using hcond
  · exact absurd h (by simp)

/-- C8 counterexample: a session.json record holding only an apiKey and
no access token is rejected by readSessionJson — the store returns null
rather than a usable record, contradicting the claim that every read of
an apiKey-only record yields a usable record. -/
theorem C8_counterexample :
    readSessionJson (some (Json.obj [("apiKey", Json.str "sk-test")])) = none := rfl

/-- C8 (amended): readAuthFromHome implements the usability rule — any
record it returns has a truthy apiKey or access token, an apiKey-only
auth.json is returned usable and a record with neither is rejected; but
readSessionJson additionally demands an access token, so an apiKey-only
session.json yields null. -/
theorem C8_credential_usability (raw : Json) (out : AuthCreds)
    (h : readAuthFromHome (some raw) = some out) :
    (jsTruthyStrOpt out.apiKey || jsTruthyOpt out.token) = true ∧
    (∀ sraw sout, readSessionJson (some sraw) = some sout →
      jsTruthyOpt sout.token = true) ∧
    (readAuthFromHome
      (some (Json.obj [("OPENAI_API_KEY", Json.str "sk-test")]))).isSome = true ∧
    readAuthFromHome (some (Json.obj [])) = none ∧
    readSessionJson (some (Json.obj [("apiKey", Json.str "sk-test")])) = none := by
  refine ⟨?_, ?_, rfl, rfl, rfl⟩
  · unfold readAuthFromHome at h
    exact finishAuth_usable h
  · intro sraw sout hs
    unfold readSessionJson at hs
    exact finishSession_token hs

/-- C8 witness: the apiKey-only auth.json record. -/
theorem C8_credential_usability_witness :
    readAuthFromHome (some (Json.obj [("OPENAI_API_KEY", Json.str "sk-test")])) =
      some ⟨some "sk-test", none, none⟩ ∧
    ((jsTruthyStrOpt (some "sk-test") ||
        jsTruthyOpt (none : Option Json)) = true ∧
     (∀ sraw sout, readSessionJson (some sraw) = some sout →
       jsTruthyOpt sout.token = true) ∧
     (readAuthFromHome
       (some (Json.obj [("OPENAI_API_KEY", Json.str "sk-test")]))).isSome = true ∧
     readAuthFromHome (some (Json.obj [])) = none ∧
     readSessionJson (some (Json.obj [("apiKey", Json.str "sk-test")])) = none) :=
  ⟨rfl, C8_credential_usability (Json.obj [("OPENAI_API_KEY", Json.str "sk-test")])
    ⟨some "sk-test", none, none⟩ rfl⟩

/-! C9: JWT claims extraction. -/

/-- C9 counterexample: on the malformed single-segment token ab, the
gg.js claims extractor returns null — not the empty object the claim
promises for every malformed input. -/
theorem C9_counterexample :
    ggParseJwtClaims "ab" = none ∧ ∀ j : Json, ggParseJwtClaims "ab" ≠ some j := by
  refine ⟨rfl, ?_⟩
  intro j hj
  rw [show ggParseJwtClaims "ab" = none from rfl] at hj
  exact Option.noConfusion hj

/-- C9 (amended): claims extraction is total in both variants and fails
softly; on an input with fewer than two dot-separated segments, or whose
second segment does not decode as JSON, the test_gpt variant returns the
empty object while the gg variant returns null. Segment counts other
than three are not otherwise rejected — the second segment is decoded
whenever at least two exist. -/
theorem C9_claims_extraction (raw : String)
    (h : (splitDots raw).length < 2 ∨
         decodeJwtSegment ((splitDots raw).getD 1 "") = none) :
    tgParseJwtClaims raw = Json.obj [] ∧ ggParseJwtClaims raw = none := by
  constructor
  · unfold tgParseJwtClaims
    rcases h with h | h
    · rw [if_pos h]
    · by_cases h2 : (splitDots raw).length < 2
      · rw [if_pos h2]
      · rw [if_neg h2, h]
  · unfold ggParseJwtClaims
    cases hg : (splitDots raw).get? 1 with
    | none => rfl
    | some seg =>
      rcases h with h | h
      · exfalso
        rw [List.get?_eq_none.mpr (by omega)] at hg
        exact Option.noConfusion hg
      · have hlen : 1 < (splitDots raw).length := by
          by_contra hc
          rw [List.get?_eq_none.mpr (by omega)] at hg
          exact Option.noConfusion hg
        have hseg : seg = (splitDots raw).getD 1 "" := by
          have := List.get?_eq_getElem? (splitDots raw) 1
          rw [hg] at this
          simp [List.getD_eq_getElem?_getD, ← this]
        dsimp only
        rw [hseg, h]

/-- C9 witness: the single-segment token ab satisfies the malformedness
hypothesis and both extractors fail softly on it. -/
theorem C9_claims_extraction_witness :
    ((splitDots "ab").length < 2 ∨
      decodeJwtSegment ((splitDots "ab").getD 1 "") = none) ∧
    (tgParseJwtClaims "ab" = Json.obj [] ∧ ggParseJwtClaims "ab" = none) :=
  ⟨Or.inl (by decide), C9_claims_extraction "ab" (Or.inl (by decide))⟩

/-! C10: tool-call emission of the Qwen bridge. -/

theorem filter_toolCall_emitEnd (parsed : Json) (intent : Option String)
    (rid : String) :
    (emitToolCallsAndEnd parsed intent rid).filter Ev.isToolCall =
      (match firstQualifyingInput (bridgeToolCallsOf parsed) with
       | some inp => [applyPatchCallEv inp]
       | none =>
         match intent with
         | some p => [applyPatchCallEv (synthPatch p)]
         | none => []) := by
  unfold emitToolCallsAndEnd
  rw [toolLoop_eq]
  cases hfq : firstQualifyingInput (bridgeToolCallsOf parsed) with
  | some inp =>
    simp [List.filter_append, List.filter_cons, Ev.isToolCall, applyPatchCallEv]
  | none =>
    cases intent with
    | some p =>
      simp [List.filter_append, List.filter_cons, Ev.isToolCall, applyPatchCallEv]
    | none => simp [Ev.isToolCall]

theorem patchFallback_filter (t : String) :
    ((patchFallbackEvs t).filter Ev.isToolCall).length ≤ 1 := by
  unfold patchFallbackEvs
  split <;> simp [Ev.isToolCall, applyPatchCallEv]

theorem emitEnd_toolCalls_le_one (parsed : Json) (intent : Option String)
    (rid : String) :
    ((emitToolCallsAndEnd parsed intent rid).filter Ev.isToolCall).length ≤ 1 := by
  rw [filter_toolCall_emitEnd]
  split
  · simp
  · split <;> simp

/-- C10 counterexample: with a detected file-update intent and a
tool_calls list holding no entry named apply_patch at all, the bridge
still emits one apply_patch function-call event (synthesized from the
intent) — so tool-call events are not produced only by the first
qualifying apply_patch entry. -/
theorem C10_counterexample :
    ((bridgeToolCallsOf (Json.obj [("tool_calls", Json.arr [Json.obj
        [("name", Json.str "shell"),
         ("arguments", Json.obj [("command", Json.str "ls")])]])])).filter
      tcNameIsApplyPatch).length = 0 ∧
    ((emitToolCallsAndEnd (Json.obj [("tool_calls", Json.arr [Json.obj
        [("name", Json.str "shell"),
         ("arguments", Json.obj [("command", Json.str "ls")])]])])
        (some "calc.js") "r").filter Ev.isToolCall).length = 1 :=
  ⟨by decide, by decide⟩

/-- C10 (amended): emitToolCallsAndEnd emits at most one tool-call event:
exactly the first tool_calls entry named apply_patch whose input holds
both patch markers (entries with other names or unqualified inputs are
skipped without an event); when no entry qualifies, a single apply_patch
call synthesized from a detected file-update intent is emitted instead,
or none without such an intent. Across every path of the bridge handler,
at most one tool-call event is emitted per request. -/
theorem C10_tool_call_emission (parsed : Json) (intent : Option String)
    (rid : String) :
    ((emitToolCallsAndEnd parsed intent rid).filter Ev.isToolCall).length ≤ 1 ∧
    (emitToolCallsAndEnd parsed intent rid).filter Ev.isToolCall =
      (match firstQualifyingInput (bridgeToolCallsOf parsed) with
       | some inp => [applyPatchCallEv inp]
       | none =>
         match intent with
         | some p => [applyPatchCallEv (synthPatch p)]
         | none => []) ∧
    (∀ upstream rid2 errRid,
      ((bridgeRespond intent upstream rid2 errRid).filter Ev.isToolCall).length ≤ 1) := by
  refine ⟨emitEnd_toolCalls_le_one parsed intent rid,
    filter_toolCall_emitEnd parsed intent rid, ?_⟩
  intro upstream rid2 errRid
  unfold bridgeRespond
  cases upstream with
  | error msg => simp [Ev.isToolCall, List.filter_cons]
  | ok fullText =>
    cases h : tryParseJsonBridge fullText with
    | none =>
      simpa [h, Ev.isToolCall, List.filter_cons, List.filter_append] using
        patchFallback_filter fullText
    | some parsed2 =>
      by_cases hp : parsedHasToolsOrMessage parsed2 = true
      · simpa [h, hp, Ev.isToolCall, List.filter_cons] using
          emitEnd_toolCalls_le_one parsed2 intent rid2
      · simpa [h, hp, Ev.isToolCall, List.filter_cons, List.filter_append] using
          patchFallback_filter fullText

end Codex
